import Mathlib

/-!
Verification of the WebWaka core ledger engine against its specification.

The engine (`src/index.ts`, class `Ledger`) together with its in-memory
storage backend (`src/storage.ts`, class `InMemoryStorage`) is shallowly
embedded below.  The mutable storage becomes an explicit state record threaded
through every operation; fallible operations return `Except`; the
caller-supplied wall clock (`new Date()`) and identifier generator (`uuidv4`)
become counters carried in the state.  Amount strings are parsed at the call
sites where the source applies `parseFloat`.

JavaScript `number` arithmetic appears in two layers.  The idealized layer
(`parseAmount`, `getAccountBalance`, `reverseEvent`, `ratToString`,
`ratToFixed8`) computes at exact rational precision (`ℚ`), which agrees with
the program only while every intermediate value is exactly representable in
binary64.  The faithful layer (`parseF`, `addF`, `getAccountBalanceF`,
`reverseEventF`, `jsToStringF`, `toFixed8F`) models IEEE-754 binary64
itself: a double is a pair `(m, e) : ℤ × ℤ` standing for `m * 2 ^ e` with
`|m| ≤ 2 ^ 53`, `roundDyadic` is correct rounding to nearest (ties to even)
of a rational given by an integer numerator and denominator, addition rounds
the exact sum, `jsToStringF` is the shortest-round-trip rendering of
ECMA-262 `Number::toString`, and `toFixed8F` is `Number.prototype.toFixed(8)`
(half-away-from-zero on the magnitude, sign prepended, `toString` fallback at
`10 ^ 21`).  Exponent range is unbounded, so binary64 overflow and subnormal
underflow are outside the modelled fragment; ledger amounts stay far inside
the normal range.
-/

namespace CoreLedger

/-! ### Decimal digits, parsing and printing -/

/-- The character of a decimal digit: `digitChar 0 = '0'` … `digitChar 9 = '9'`. -/
def digitChar (d : ℕ) : Char :=
  match d with
  | 0 => '0'
  | 1 => '1'
  | 2 => '2'
  | 3 => '3'
  | 4 => '4'
  | 5 => '5'
  | 6 => '6'
  | 7 => '7'
  | 8 => '8'
  | _ => '9'

/-- Numeric value of a digit character. -/
def digitVal (c : Char) : ℕ := c.toNat - 48

/-- Decision of membership in `'0'`–`'9'`. -/
def isDigitChar (c : Char) : Bool := 48 ≤ c.toNat && c.toNat ≤ 57

/-- Little-endian decimal digits of the second argument; the first argument is
fuel making the recursion structural and is always instantiated with the
number itself. -/
def natDigitsLE : ℕ → ℕ → List ℕ
  | 0, _ => []
  | _ + 1, 0 => []
  | fuel + 1, n + 1 => (n + 1) % 10 :: natDigitsLE fuel ((n + 1) / 10)

/-- Decimal digit characters of `n`, most significant first; empty for `0`. -/
def natChars (n : ℕ) : List Char := ((natDigitsLE n n).map digitChar).reverse

/-- Decimal digit characters of `n`, printing `0` as `"0"`. -/
def natChars0 (n : ℕ) : List Char := if n = 0 then ['0'] else natChars n

/-- Rendering of a natural number in decimal. -/
def natToStr (n : ℕ) : String := String.mk (natChars0 n)

/-- Digit characters of `n` left-padded with `'0'` to width `k`. -/
def padZeros (k n : ℕ) : List Char := List.replicate (k - (natChars n).length) '0' ++ natChars n

/-- Value of a most-significant-first list of digit characters (the
accumulator fold a decimal numeral reader performs). -/
def digitsToNat (l : List Char) : ℕ := l.foldl (fun a c => 10 * a + digitVal c) 0

/-- Unsigned decimal parser on characters: an integer part, optionally
followed by `'.'` and a fraction part.  Mirrors `parseFloat` on the decimal
literals the ledger handles; exponent notation, `NaN` and `Infinity` are
outside the modelled fragment, and a string without leading digits parses
to `0`. -/
def parseUnsignedChars (cs : List Char) : ℚ :=
  let intPart := cs.takeWhile isDigitChar
  let rest := cs.dropWhile isDigitChar
  let fracPart :=
    match rest with
    | '.' :: r => r.takeWhile isDigitChar
    | _ => []
  (digitsToNat intPart : ℚ) + (digitsToNat fracPart : ℚ) / 10 ^ fracPart.length

/-- Signed decimal parser on characters. -/
def parseAmountChars : List Char → ℚ
  | '-' :: rest => -parseUnsignedChars rest
  | '+' :: rest => parseUnsignedChars rest
  | cs => parseUnsignedChars cs

/-- Exact decimal value of an amount literal.  `parseFloat` itself returns
the nearest binary64 double of this value; `parseF` below composes this
parse with that correct rounding, while `parseAmount` is the exact-rational
idealization used where a claim's content is not arithmetic precision. -/
def parseAmount (s : String) : ℚ := parseAmountChars s.toList

/-- Character rendering behind `ratToString`.  The exponent `k` need not be
minimal: `q.den` itself is a sufficient decimal exponent whenever the value
has a finite decimal expansion, which is the only case the engine produces. -/
def ratToStringChars (q : ℚ) : List Char :=
  let d := q.den
  let k := if d = 1 then 0 else d
  if d ∣ 10 ^ k then
    let m := q.num.natAbs * (10 ^ k / d)
    (if q.num < 0 then ['-'] else []) ++ natChars0 (m / 10 ^ k) ++
      (if k = 0 then [] else '.' :: padZeros k (m % 10 ^ k))
  else
    ['0']

/-- Model of `Number.prototype.toString` on an exact decimal value: sign,
integer digits, and a fraction part when the value is not an integer.
JavaScript prints the shortest round-tripping decimal form; this model may
print extra trailing zeros, and both forms parse back to the same value,
which is the only property the development relies on. -/
def ratToString (q : ℚ) : String := String.mk (ratToStringChars q)

/-- Floor of a nonnegative rational: integer division of numerator by
denominator. -/
def ratFloorNonneg (r : ℚ) : ℤ := r.num / (r.den : ℤ)

/-- Rounding to the nearest integer, halves away from zero, as `toFixed`
rounds. -/
def roundHalfAway (r : ℚ) : ℤ :=
  if r < 0 then -ratFloorNonneg (-r + 1 / 2) else ratFloorNonneg (r + 1 / 2)

/-- Model of `Number.prototype.toFixed(8)`: the value rendered with exactly
eight fraction digits. -/
def ratToFixed8 (q : ℚ) : String :=
  let n := roundHalfAway (q * 10 ^ 8)
  let m := n.natAbs
  String.mk ((if n < 0 then ['-'] else []) ++ natChars0 (m / 10 ^ 8) ++ '.' :: padZeros 8 (m % 10 ^ 8))

/-! ### Correctness of the digit plumbing -/

/-- Auxiliary little-endian value of a digit list. -/
def valLE : List ℕ → ℕ
  | [] => 0
  | d :: l => d + 10 * valLE l

theorem digitVal_digitChar {d : ℕ} (h : d ≤ 9) : digitVal (digitChar d) = d := by
  interval_cases d <;> rfl

theorem isDigitChar_digitChar {d : ℕ} (h : d ≤ 9) : isDigitChar (digitChar d) = true := by
  interval_cases d <;> rfl

theorem natDigitsLE_lt (fuel n : ℕ) : ∀ d ∈ natDigitsLE fuel n, d < 10 := by
  induction fuel generalizing n with
  | zero => simp [natDigitsLE]
  | succ fuel ih =>
    cases n with
    | zero => simp [natDigitsLE]
    | succ m =>
      intro d hd
      simp only [natDigitsLE, List.mem_cons] at hd
      rcases hd with h | h
      · subst h; exact Nat.mod_lt _ (by norm_num)
      · exact ih _ _ h

theorem valLE_natDigitsLE (fuel n : ℕ) (h : n ≤ fuel) : valLE (natDigitsLE fuel n) = n := by
  induction fuel generalizing n with
  | zero => interval_cases n; rfl
  | succ fuel ih =>
    cases n with
    | zero => rfl
    | succ m =>
      have hlt : (m + 1) / 10 < m + 1 := Nat.div_lt_self (Nat.succ_pos m) (by norm_num)
      have hle : (m + 1) / 10 ≤ fuel := by omega
      simp only [natDigitsLE, valLE, ih _ hle]
      omega

theorem natDigitsLE_length (fuel n k : ℕ) (hn : n ≤ fuel) (hk : n < 10 ^ k) :
    (natDigitsLE fuel n).length ≤ k := by
  induction fuel generalizing n k with
  | zero => simp [natDigitsLE]
  | succ fuel ih =>
    cases n with
    | zero => simp [natDigitsLE]
    | succ m =>
      cases k with
      | zero => omega
      | succ k =>
        have hlt : (m + 1) / 10 < m + 1 := Nat.div_lt_self (Nat.succ_pos m) (by norm_num)
        have hle : (m + 1) / 10 ≤ fuel := by omega
        have hdiv : (m + 1) / 10 < 10 ^ k := by
          rw [Nat.div_lt_iff_lt_mul (by norm_num : 0 < 10)]
          calc m + 1 < 10 ^ (k + 1) := hk
          _ = 10 ^ k * 10 := by ring
        simpa [natDigitsLE] using ih _ k hle hdiv

theorem digitsToNat_append (l : List Char) (c : Char) :
    digitsToNat (l ++ [c]) = 10 * digitsToNat l + digitVal c := by
  simp [digitsToNat, List.foldl_append]

theorem digitsToNat_reverse_map (L : List ℕ) (h : ∀ d ∈ L, d < 10) :
    digitsToNat ((L.map digitChar).reverse) = valLE L := by
  induction L with
  | nil => rfl
  | cons d T ih =>
    have hd : d ≤ 9 := by have := h d (by simp); omega
    have hT : ∀ x ∈ T, x < 10 := fun x hx => h x (by simp [hx])
    simp only [List.map_cons, List.reverse_cons, digitsToNat_append, ih hT,
      digitVal_digitChar hd, valLE]
    ring

theorem digitsToNat_natChars (n : ℕ) : digitsToNat (natChars n) = n := by
  unfold natChars
  rw [digitsToNat_reverse_map _ (natDigitsLE_lt n n), valLE_natDigitsLE n n le_rfl]

theorem natChars_digits (n : ℕ) : ∀ c ∈ natChars n, isDigitChar c = true := by
  intro c hc
  unfold natChars at hc
  rw [List.mem_reverse, List.mem_map] at hc
  obtain ⟨d, hd, rfl⟩ := hc
  exact isDigitChar_digitChar (by have := natDigitsLE_lt n n d hd; omega)

theorem natChars0_digits (n : ℕ) : ∀ c ∈ natChars0 n, isDigitChar c = true := by
  intro c hc
  unfold natChars0 at hc
  split at hc
  · simp at hc; subst hc; rfl
  · exact natChars_digits n c hc

theorem digitsToNat_natChars0 (n : ℕ) : digitsToNat (natChars0 n) = n := by
  unfold natChars0
  split
  · subst ‹n = 0›; rfl
  · exact digitsToNat_natChars n

theorem natChars0_ne_nil (n : ℕ) : natChars0 n ≠ [] := by
  unfold natChars0
  split
  · simp
  · unfold natChars
    simp only [ne_eq, List.reverse_eq_nil_iff, List.map_eq_nil_iff]
    cases n with
    | zero => omega
    | succ m => simp [natDigitsLE]

theorem natChars_length_le {n k : ℕ} (h : n < 10 ^ k) : (natChars n).length ≤ k := by
  unfold natChars
  simpa using natDigitsLE_length n n k le_rfl h

theorem digitsToNat_replicate_zero (j : ℕ) (l : List Char) :
    digitsToNat (List.replicate j '0' ++ l) = digitsToNat l := by
  induction j with
  | zero => rfl
  | succ m ih => simpa [List.replicate_succ, digitsToNat] using ih

theorem padZeros_digits (k n : ℕ) : ∀ c ∈ padZeros k n, isDigitChar c = true := by
  intro c hc
  unfold padZeros at hc
  rw [List.mem_append] at hc
  rcases hc with h | h
  · rw [List.mem_replicate] at h; rw [h.2]; rfl
  · exact natChars_digits n c h

theorem padZeros_length {k n : ℕ} (h : n < 10 ^ k) : (padZeros k n).length = k := by
  have := natChars_length_le h
  simp [padZeros]
  omega

theorem digitsToNat_padZeros (k n : ℕ) : digitsToNat (padZeros k n) = n := by
  unfold padZeros
  rw [digitsToNat_replicate_zero, digitsToNat_natChars]

/-! ### Parser and printer round trip -/

theorem takeWhile_of_all {p : Char → Bool} :
    ∀ l : List Char, (∀ x ∈ l, p x = true) → l.takeWhile p = l
  | [], _ => rfl
  | c :: t, h => by
    simp [List.takeWhile_cons, h c (by simp),
      takeWhile_of_all t (fun x hx => h x (by simp [hx]))]

theorem dropWhile_of_all {p : Char → Bool} :
    ∀ l : List Char, (∀ x ∈ l, p x = true) → l.dropWhile p = []
  | [], _ => rfl
  | c :: t, h => by
    simp [List.dropWhile_cons, h c (by simp),
      dropWhile_of_all t (fun x hx => h x (by simp [hx]))]

theorem takeWhile_append_stop {p : Char → Bool} (l : List Char) (c : Char) (r : List Char)
    (hl : ∀ x ∈ l, p x = true) (hc : p c = false) :
    (l ++ c :: r).takeWhile p = l ∧ (l ++ c :: r).dropWhile p = c :: r := by
  induction l with
  | nil => simp [List.takeWhile_cons, List.dropWhile_cons, hc]
  | cons a t ih =>
    have ha := hl a (by simp)
    have iht := ih (fun x hx => hl x (by simp [hx]))
    simp [List.takeWhile_cons, List.dropWhile_cons, ha, iht.1, iht.2]

theorem parseUnsigned_digits (l : List Char) (hl : ∀ x ∈ l, isDigitChar x = true) :
    parseUnsignedChars l = (digitsToNat l : ℚ) := by
  unfold parseUnsignedChars
  rw [takeWhile_of_all l hl, dropWhile_of_all l hl]
  simp [digitsToNat]

theorem parseUnsigned_digits_dot (l f : List Char)
    (hl : ∀ x ∈ l, isDigitChar x = true) (hf : ∀ x ∈ f, isDigitChar x = true) :
    parseUnsignedChars (l ++ '.' :: f) =
      (digitsToNat l : ℚ) + (digitsToNat f : ℚ) / 10 ^ f.length := by
  have hdot : isDigitChar '.' = false := by decide
  have h := takeWhile_append_stop l '.' f hl hdot
  unfold parseUnsignedChars
  rw [h.1, h.2]
  simp [takeWhile_of_all f hf]

theorem parseAmountChars_neg (cs : List Char) :
    parseAmountChars ('-' :: cs) = -parseUnsignedChars cs := by
  simp [parseAmountChars]

theorem parseAmountChars_digit_head (c : Char) (rest : List Char)
    (hc : isDigitChar c = true) :
    parseAmountChars (c :: rest) = parseUnsignedChars (c :: rest) := by
  have h1 : c ≠ '-' := by rintro rfl; exact absurd hc (by decide)
  have h2 : c ≠ '+' := by rintro rfl; exact absurd hc (by decide)
  simp [parseAmountChars, h1, h2]

theorem parseAmountChars_append_digits (l rest : List Char) (hne : l ≠ [])
    (hl : ∀ x ∈ l, isDigitChar x = true) :
    parseAmountChars (l ++ rest) = parseUnsignedChars (l ++ rest) := by
  cases l with
  | nil => exact absurd rfl hne
  | cons c t => exact parseAmountChars_digit_head c (t ++ rest) (hl c (by simp))

theorem dvd_ten_pow_self {d : ℕ} (j : ℕ) (h : d ∣ 10 ^ j) : d ∣ 10 ^ d := by
  induction d using Nat.strong_induction_on with
  | _ d ih =>
    rcases Nat.lt_or_ge d 2 with hd2 | hd2
    · interval_cases d
      · exact absurd (Nat.eq_zero_of_zero_dvd h) (by positivity)
      · exact one_dvd _
    · by_cases h2 : 2 ∣ d
      · obtain ⟨e, rfl⟩ := h2
        have he1 : 1 ≤ e := by omega
        have helt : e < 2 * e := by omega
        have hedvd : e ∣ 10 ^ j := dvd_trans (dvd_mul_left e 2) h
        have ihe := ih e helt hedvd
        have h1 : 2 * e ∣ 2 * 10 ^ e := Nat.mul_dvd_mul_left 2 ihe
        have h2' : 2 * 10 ^ e ∣ 10 ^ (e + 1) := by
          rw [pow_succ, Nat.mul_comm (10 ^ e) 10]
          exact Nat.mul_dvd_mul_right (by norm_num) _
        exact dvd_trans (dvd_trans h1 h2') (pow_dvd_pow 10 (by omega))
      · by_cases h5 : 5 ∣ d
        · obtain ⟨e, rfl⟩ := h5
          have he1 : 1 ≤ e := by omega
          have helt : e < 5 * e := by omega
          have hedvd : e ∣ 10 ^ j := dvd_trans (dvd_mul_left e 5) h
          have ihe := ih e helt hedvd
          have h1 : 5 * e ∣ 5 * 10 ^ e := Nat.mul_dvd_mul_left 5 ihe
          have h2' : 5 * 10 ^ e ∣ 10 ^ (e + 1) := by
            rw [pow_succ, Nat.mul_comm (10 ^ e) 10]
            exact Nat.mul_dvd_mul_right (by norm_num) _
          exact dvd_trans (dvd_trans h1 h2') (pow_dvd_pow 10 (by omega))
        · have hc2 : Nat.Coprime d 2 :=
            ((Nat.prime_two.coprime_iff_not_dvd).mpr h2).symm
          have hc5 : Nat.Coprime d 5 :=
            ((Nat.prime_five.coprime_iff_not_dvd).mpr h5).symm
          have hc10 : Nat.Coprime d 10 := by
            have := Nat.Coprime.mul_right hc2 hc5
            simpa using this
          have hcp : Nat.Coprime d (10 ^ j) := hc10.pow_right j
          have hone : d ∣ 1 := by
            have hg : d ∣ Nat.gcd d (10 ^ j) := Nat.dvd_gcd dvd_rfl h
            rwa [hcp] at hg
          exact absurd (Nat.dvd_one.mp hone) (by omega)

theorem parseAmount_mk (l : List Char) : parseAmount (String.mk l) = parseAmountChars l := rfl

theorem parseAmountChars_digits (l : List Char) (hne : l ≠ [])
    (hl : ∀ x ∈ l, isDigitChar x = true) :
    parseAmountChars l = (digitsToNat l : ℚ) := by
  cases l with
  | nil => exact absurd rfl hne
  | cons c t =>
    rw [parseAmountChars_digit_head c t (hl c (by simp))]
    exact parseUnsigned_digits _ hl


/-- Round trip of the printer and the parser on every value with a finite
decimal expansion. -/
theorem parseAmount_ratToString {q : ℚ} (j : ℕ) (hq : (q.den : ℕ) ∣ 10 ^ j) :
    parseAmount (ratToString q) = q := by
  have hd0 : q.den ≠ 0 := q.den_nz
  have habsneg : q.num < 0 → ((q.num.natAbs : ℚ)) = -(q.num : ℚ) := by
    intro hneg
    have h : ((q.num.natAbs : ℤ)) = -q.num := Int.ofNat_natAbs_of_nonpos (le_of_lt hneg)
    calc ((q.num.natAbs : ℚ)) = (((q.num.natAbs : ℤ) : ℚ)) :=
      (Int.cast_natCast q.num.natAbs).symm
    _ = ((-q.num : ℤ) : ℚ) := by rw [h]
    _ = -(q.num : ℚ) := by push_cast; ring
  have habspos : ¬q.num < 0 → ((q.num.natAbs : ℚ)) = (q.num : ℚ) := by
    intro hpos
    have h : ((q.num.natAbs : ℤ)) = q.num := Int.natAbs_of_nonneg (le_of_not_lt hpos)
    calc ((q.num.natAbs : ℚ)) = (((q.num.natAbs : ℤ) : ℚ)) :=
      (Int.cast_natCast q.num.natAbs).symm
    _ = ((q.num : ℤ) : ℚ) := by rw [h]
    _ = (q.num : ℚ) := rfl
  rw [ratToString, parseAmount_mk]
  by_cases hd1 : q.den = 1
  · have hq1 : ((q.num : ℚ)) = q := by
      conv_rhs => rw [← Rat.num_div_den q]
      rw [hd1]
      norm_num
    simp only [ratToStringChars, hd1, pow_zero, Nat.div_one, Nat.div_self, Nat.mul_one,
      one_dvd, if_true, List.append_nil]
    by_cases hneg : q.num < 0
    · rw [if_pos hneg]
      simp only [List.singleton_append, parseAmountChars_neg,
        parseUnsigned_digits _ (natChars0_digits _), digitsToNat_natChars0]
      rw [habsneg hneg, neg_neg, hq1]
    · rw [if_neg hneg]
      simp only [List.nil_append]
      rw [parseAmountChars_digits _ (natChars0_ne_nil _) (natChars0_digits _),
        digitsToNat_natChars0, habspos hneg, hq1]
  · have hdvd : q.den ∣ 10 ^ q.den := dvd_ten_pow_self j hq
    simp only [ratToStringChars, if_neg hd1, if_pos hdvd]
    set m := q.num.natAbs * (10 ^ q.den / q.den) with hm
    set a := m / 10 ^ q.den with ha
    set b := m % 10 ^ q.den with hb
    have hb10 : b < 10 ^ q.den := Nat.mod_lt _ (pow_pos (by norm_num) _)
    have hlen : (padZeros q.den b).length = q.den := padZeros_length hb10
    have h10 : ((10 : ℚ)) ^ q.den ≠ 0 := by positivity
    have hdQ : ((q.den : ℚ)) ≠ 0 := by exact_mod_cast hd0
    have hparse : parseUnsignedChars (natChars0 a ++ '.' :: padZeros q.den b) =
        (a : ℚ) + (b : ℚ) / 10 ^ q.den := by
      rw [parseUnsigned_digits_dot _ _ (natChars0_digits a) (padZeros_digits q.den b),
        digitsToNat_natChars0, digitsToNat_padZeros, hlen]
    have hNat : a * 10 ^ q.den + b = m := by
      rw [ha, hb, Nat.mul_comm]
      exact Nat.div_add_mod m _
    have hmab : ((m : ℚ)) = (a : ℚ) * 10 ^ q.den + (b : ℚ) := by
      exact_mod_cast hNat.symm
    have hmcast : ((m : ℚ)) = (q.num.natAbs : ℚ) * ((10 : ℚ) ^ q.den / (q.den : ℚ)) := by
      rw [hm]
      push_cast [Nat.cast_div hdvd hdQ]
      ring
    have hval : (a : ℚ) + (b : ℚ) / 10 ^ q.den = (q.num.natAbs : ℚ) / (q.den : ℚ) := by
      have h1 : (a : ℚ) + (b : ℚ) / 10 ^ q.den = ((m : ℚ)) / 10 ^ q.den := by
        rw [hmab, add_div, mul_div_cancel_right₀ _ h10]
      have h2 : ((m : ℚ)) / 10 ^ q.den = (q.num.natAbs : ℚ) / (q.den : ℚ) := by
        rw [hmcast]
        field_simp
        ring
      exact h1.trans h2
    have hifz : (if q.den = 0 then ([] : List Char) else '.' :: padZeros q.den b) =
        '.' :: padZeros q.den b := if_neg hd0
    rw [hifz]
    by_cases hneg : q.num < 0
    · rw [if_pos hneg]
      simp only [List.singleton_append, List.cons_append, List.nil_append]
      rw [parseAmountChars_neg, hparse, hval, habsneg hneg, neg_div, neg_neg,
        Rat.num_div_den q]
    · rw [if_neg hneg]
      simp only [List.nil_append]
      rw [parseAmountChars_append_digits _ _ (natChars0_ne_nil a) (natChars0_digits a),
        hparse, hval, habspos hneg, Rat.num_div_den q]

/-! ### Data model (`src/index.ts` interfaces, `shared/schema.ts` rows) -/

structure LedgerAccount where
  id : String
  tenantId : String
  accountType : String
  currency : String
  metadata : Option String
  createdAt : ℕ
deriving DecidableEq

structure LedgerEvent where
  id : String
  tenantId : String
  accountId : String
  eventType : String
  amount : String
  currency : String
  idempotencyKey : String
  reversesEventId : Option String
  description : Option String
  metadata : Option String
  sequenceNumber : ℕ
  createdAt : ℕ
deriving DecidableEq

structure AuditEvent where
  id : String
  tenantId : String
  entityType : String
  entityId : String
  action : String
  actorId : Option String
  payload : Option String
  createdAt : ℕ
deriving DecidableEq

structure OpenAccountParams where
  accountId : Option String
  accountType : String
  currency : String
  metadata : Option String
deriving DecidableEq

structure RecordEventParams where
  eventId : Option String
  accountId : String
  eventType : String
  amount : String
  currency : String
  idempotencyKey : String
  description : Option String
  metadata : Option String
deriving DecidableEq

structure ReverseEventParams where
  originalEventId : String
  reversalEventId : Option String
  idempotencyKey : String
  description : Option String
deriving DecidableEq

structure AccountBalance where
  accountId : String
  balance : String
  currency : String
  eventCount : ℕ
deriving DecidableEq

structure StatementEntry where
  eventId : String
  eventType : String
  amount : String
  runningBalance : String
  description : Option String
  createdAt : ℕ
deriving DecidableEq

structure StatementOptions where
  fromDate : Option ℕ
  toDate : Option ℕ
deriving DecidableEq

structure AccountStatement where
  accountId : String
  currency : String
  entries : List StatementEntry
  openingBalance : String
  closingBalance : String
deriving DecidableEq

structure IntegrityReport where
  valid : Bool
  accountId : String
  expectedBalance : String
  calculatedBalance : String
  eventCount : ℕ
  errors : List String
deriving DecidableEq

/-- Error codes carried by `LedgerError`, plus the plain `Error` the
in-memory storage throws on a duplicate idempotency key. -/
inductive LErr where
  | accountExists
  | accountNotFound
  | currencyMismatch
  | eventNotFound
  | alreadyReversed
  | duplicateIdempotencyKey
deriving DecidableEq

/-- Whole-system state: the three collections of `InMemoryStorage`, a logical
clock standing for `new Date()` (new stamps are fresh and increasing), and a
counter standing for `uuidv4` (each generated identifier is fresh). -/
structure St where
  accounts : List (String × LedgerAccount)
  events : List LedgerEvent
  audits : List AuditEvent
  clock : ℕ
  nextUuid : ℕ
deriving DecidableEq

/-- The empty starting state. -/
def st0 : St := { accounts := [], events := [], audits := [], clock := 0, nextUuid := 0 }

/-- Model of `uuidv4()`. -/
def freshUuid (s : St) : String × St :=
  ("uuid-" ++ natToStr s.nextUuid, { s with nextUuid := s.nextUuid + 1 })

/-- JavaScript `x || y` on an optional string: absent and empty are falsy. -/
def jsOr (o : Option String) (dflt : String) : String :=
  match o with
  | some v => if v = "" then dflt else v
  | none => dflt

/-- JavaScript `x || null` on an optional string. -/
def jsOrNone (o : Option String) : Option String :=
  match o with
  | some v => if v = "" then none else some v
  | none => none

/-- Opaque stand-in for `JSON.stringify` on the small audit payload records
the engine builds; the engine never reads payloads back. -/
def encodePayload (fields : List (String × String)) : String :=
  String.intercalate ";" (fields.map (fun kv => kv.1 ++ "=" ++ kv.2))

/-! ### `InMemoryStorage` (`src/storage.ts`) -/

/-- `InMemoryStorage.accountKey`: the string key of the account map. -/
def accountKey (tenantId accountId : String) : String := tenantId ++ ":" ++ accountId

/-- Lookup in the insertion-ordered map backing `accounts`. -/
def mapGet (m : List (String × LedgerAccount)) (k : String) : Option LedgerAccount :=
  (m.find? (fun kv => kv.1 == k)).map (fun kv => kv.2)

/-- Update of the insertion-ordered map: replace in place, else append. -/
def mapSet (m : List (String × LedgerAccount)) (k : String) (v : LedgerAccount) :
    List (String × LedgerAccount) :=
  if m.any (fun kv => kv.1 == k) then
    m.map (fun kv => if kv.1 == k then (k, v) else kv)
  else
    m ++ [(k, v)]

/-- `InMemoryStorage.getAccount`. -/
def getAccount (s : St) (tenantId accountId : String) : Option LedgerAccount :=
  mapGet s.accounts (accountKey tenantId accountId)

/-- `InMemoryStorage.getEventByIdempotencyKey`. -/
def getEventByIdempotencyKey (s : St) (tenantId idempotencyKey : String) :
    Option LedgerEvent :=
  s.events.find? (fun e => e.tenantId == tenantId && e.idempotencyKey == idempotencyKey)

/-- `InMemoryStorage.getEventById`. -/
def getEventById (s : St) (tenantId eventId : String) : Option LedgerEvent :=
  s.events.find? (fun e => e.tenantId == tenantId && e.id == eventId)

/-- `InMemoryStorage.getEventsByAccountId`. -/
def getEventsByAccountId (s : St) (tenantId accountId : String) : List LedgerEvent :=
  s.events.filter (fun e => e.tenantId == tenantId && e.accountId == accountId)

/-- `InMemoryStorage.getNextSequenceNumber`: `1` for an account with no
events, otherwise `Math.max` of the stored sequence numbers plus one. -/
def getNextSequenceNumber (s : St) (tenantId accountId : String) : ℕ :=
  let accountEvents := getEventsByAccountId s tenantId accountId
  if accountEvents.isEmpty then 1
  else (accountEvents.map (fun e => e.sequenceNumber)).foldl max 0 + 1

/-- `InMemoryStorage.createEvent`: rejects a duplicate
`(tenantId, idempotencyKey)`, stamps `createdAt`, appends. -/
def createEvent (s : St) (e : LedgerEvent) : Except LErr (LedgerEvent × St) :=
  if s.events.any (fun x => x.tenantId == e.tenantId && x.idempotencyKey == e.idempotencyKey) then
    Except.error LErr.duplicateIdempotencyKey
  else
    let ev := { e with createdAt := s.clock }
    Except.ok (ev, { s with events := s.events ++ [ev], clock := s.clock + 1 })

/-- `InMemoryStorage.createAccount`: stamps `createdAt` and inserts under
`accountKey`. -/
def createAccount (s : St) (a : LedgerAccount) : LedgerAccount × St :=
  let acct := { a with createdAt := s.clock }
  let upd : St :=
    { s with
      accounts := mapSet s.accounts (accountKey a.tenantId a.id) acct
      clock := s.clock + 1 }
  (acct, upd)

/-- `InMemoryStorage.createAuditEvent` composed with `Ledger.emitAuditEvent`:
a fresh identifier, the engine's tenant, no actor. -/
def emitAuditEvent (tenantId entityType entityId action : String)
    (payload : Option String) (s : St) : St :=
  let gen := freshUuid s
  let audit : AuditEvent :=
    { id := gen.1
      tenantId := tenantId
      entityType := entityType
      entityId := entityId
      action := action
      actorId := none
      payload := payload
      createdAt := gen.2.clock }
  { gen.2 with
    audits := gen.2.audits ++ [audit]
    clock := gen.2.clock + 1 }

/-! ### The engine (`src/index.ts`, class `Ledger`) -/

/-- `Ledger.openAccount`. -/
def openAccount (tenantId : String) (p : OpenAccountParams) (s : St) :
    Except LErr (LedgerAccount × St) :=
  let idGen : String × St :=
    match jsOrNone p.accountId with
    | some i => (i, s)
    | none => freshUuid s
  let accountId := idGen.1
  let s1 := idGen.2
  match getAccount s1 tenantId accountId with
  | some _ => Except.error LErr.accountExists
  | none =>
    let fresh : LedgerAccount :=
      { id := accountId
        tenantId := tenantId
        accountType := p.accountType
        currency := p.currency
        metadata := p.metadata
        createdAt := 0 }
    let created := createAccount s1 fresh
    let s2 := emitAuditEvent tenantId "account" accountId "ACCOUNT_OPENED"
      (some (encodePayload [("accountType", p.accountType), ("currency", p.currency)]))
      created.2
    Except.ok (created.1, s2)

/-- `Ledger.recordEvent`. -/
def recordEvent (tenantId : String) (p : RecordEventParams) (s : St) :
    Except LErr (LedgerEvent × St) :=
  match getEventByIdempotencyKey s tenantId p.idempotencyKey with
  | some existingByKey => Except.ok (existingByKey, s)
  | none =>
    match getAccount s tenantId p.accountId with
    | none => Except.error LErr.accountNotFound
    | some account =>
      if account.currency ≠ p.currency then Except.error LErr.currencyMismatch
      else
        let idGen : String × St :=
          match jsOrNone p.eventId with
          | some i => (i, s)
          | none => freshUuid s
        let eventId := idGen.1
        let s1 := idGen.2
        let sequenceNumber := getNextSequenceNumber s1 tenantId p.accountId
        let fresh : LedgerEvent :=
          { id := eventId
            tenantId := tenantId
            accountId := p.accountId
            eventType := p.eventType
            amount := p.amount
            currency := p.currency
            idempotencyKey := p.idempotencyKey
            reversesEventId := none
            description := jsOrNone p.description
            metadata := p.metadata
            sequenceNumber := sequenceNumber
            createdAt := 0 }
        match createEvent s1 fresh with
        | Except.error err => Except.error err
        | Except.ok es =>
          let s3 := emitAuditEvent tenantId "event" eventId "EVENT_RECORDED"
            (some (encodePayload [("accountId", p.accountId), ("eventType", p.eventType),
              ("amount", p.amount), ("currency", p.currency)])) es.2
          Except.ok (es.1, s3)

/-- `Ledger.reverseEvent`, with the reversed amount
`(parseFloat(originalEvent.amount) * -1).toString()` idealized as the exact
rational negation rendered by `ratToString`; `reverseEventF` below translates
the amount computation faithfully (binary64 parse, exact sign flip, shortest
round-trip rendering), and the stored strings differ once the original
amount exceeds double precision. -/
def reverseEvent (tenantId : String) (p : ReverseEventParams) (s : St) :
    Except LErr (LedgerEvent × St) :=
  match getEventByIdempotencyKey s tenantId p.idempotencyKey with
  | some existingByKey => Except.ok (existingByKey, s)
  | none =>
    match getEventById s tenantId p.originalEventId with
    | none => Except.error LErr.eventNotFound
    | some originalEvent =>
      let existingEvents := getEventsByAccountId s tenantId originalEvent.accountId
      if existingEvents.any (fun e => e.reversesEventId == some p.originalEventId) then
        Except.error LErr.alreadyReversed
      else
        let idGen : String × St :=
          match jsOrNone p.reversalEventId with
          | some i => (i, s)
          | none => freshUuid s
        let reversalEventId := idGen.1
        let s1 := idGen.2
        let sequenceNumber := getNextSequenceNumber s1 tenantId originalEvent.accountId
        let reversedAmount := ratToString (parseAmount originalEvent.amount * (-1))
        let fresh : LedgerEvent :=
          { id := reversalEventId
            tenantId := tenantId
            accountId := originalEvent.accountId
            eventType := "REVERSAL"
            amount := reversedAmount
            currency := originalEvent.currency
            idempotencyKey := p.idempotencyKey
            reversesEventId := some p.originalEventId
            description := some (jsOr p.description ("Reversal of event " ++ p.originalEventId))
            metadata := none
            sequenceNumber := sequenceNumber
            createdAt := 0 }
        match createEvent s1 fresh with
        | Except.error err => Except.error err
        | Except.ok es =>
          let s3 := emitAuditEvent tenantId "event" reversalEventId "EVENT_REVERSED"
            (some (encodePayload [("originalEventId", p.originalEventId),
              ("reversalAmount", reversedAmount)])) es.2
          Except.ok (es.1, s3)

/-- `Ledger.getAccountBalance` (read-only), at the exact-rational
idealization of the source's binary64 sum; `getAccountBalanceF` below is the
faithful translation, and the two can differ on in-schema amounts. -/
def getAccountBalance (tenantId accountId : String) (s : St) :
    Except LErr AccountBalance :=
  match getAccount s tenantId accountId with
  | none => Except.error LErr.accountNotFound
  | some account =>
    let events := getEventsByAccountId s tenantId accountId
    let balance := events.foldl (fun b e => b + parseAmount e.amount) 0
    Except.ok
      { accountId := accountId
        balance := ratToFixed8 balance
        currency := account.currency
        eventCount := events.length }

/-- Stable insertion placing `e` after every element of strictly smaller
sequence number; `sortBySeq` models
`events.sort((a, b) => a.sequenceNumber - b.sequenceNumber)`. -/
def insertBySeq (e : LedgerEvent) : List LedgerEvent → List LedgerEvent
  | [] => [e]
  | x :: xs =>
    if x.sequenceNumber < e.sequenceNumber then x :: insertBySeq e xs
    else e :: x :: xs

/-- Stable sort of the event list by ascending sequence number. -/
def sortBySeq (l : List LedgerEvent) : List LedgerEvent := l.foldr insertBySeq []

/-- Date-window predicate of `getAccountStatement`: an event is dropped when
it lies before `fromDate` or after `toDate`. -/
def inWindow (o : StatementOptions) (e : LedgerEvent) : Bool :=
  (match o.fromDate with
   | some fromDate => decide (fromDate ≤ e.createdAt)
   | none => true) &&
  (match o.toDate with
   | some toDate => decide (e.createdAt ≤ toDate)
   | none => true)

/-- Statement events: sort by sequence number, then filter to the window when
at least one bound was supplied. -/
def statementEvents (o : StatementOptions) (l : List LedgerEvent) : List LedgerEvent :=
  let sorted := sortBySeq l
  if o.fromDate.isSome || o.toDate.isSome then sorted.filter (inWindow o) else sorted

/-- Running-balance accumulation of the statement entries. -/
def stmtEntriesAux (runningBalance : ℚ) : List LedgerEvent → List StatementEntry
  | [] => []
  | e :: rest =>
    let rb := runningBalance + parseAmount e.amount
    { eventId := e.id
      eventType := e.eventType
      amount := e.amount
      runningBalance := ratToFixed8 rb
      description := e.description
      createdAt := e.createdAt } :: stmtEntriesAux rb rest

/-- Opening balance of a statement: the first included entry's running
balance minus that entry's amount, re-rendered; `"0.00000000"` when the
statement has no entries. -/
def statementOpening (entries : List StatementEntry) : String :=
  match entries with
  | [] => "0.00000000"
  | e0 :: _ => ratToFixed8 (parseAmount e0.runningBalance - parseAmount e0.amount)

/-- Closing balance of a statement: the last included entry's running
balance; `"0.00000000"` when the statement has no entries. -/
def statementClosing (entries : List StatementEntry) : String :=
  match entries.getLast? with
  | none => "0.00000000"
  | some elast => elast.runningBalance

/-- Statement built for an existing account. -/
def accountStatementOf (accountId : String) (account : LedgerAccount)
    (o : StatementOptions) (events : List LedgerEvent) : AccountStatement :=
  let entries := stmtEntriesAux 0 (statementEvents o events)
  { accountId := accountId
    currency := account.currency
    entries := entries
    openingBalance := statementOpening entries
    closingBalance := statementClosing entries }

/-- `Ledger.getAccountStatement` (read-only). -/
def getAccountStatement (tenantId accountId : String) (o : StatementOptions) (s : St) :
    Except LErr AccountStatement :=
  match getAccount s tenantId accountId with
  | none => Except.error LErr.accountNotFound
  | some account =>
    Except.ok (accountStatementOf accountId account o (getEventsByAccountId s tenantId accountId))

/-- Message of a sequence gap (the template literal of the source, with this
development's integer renderer). -/
def gapMsg (expected got : ℕ) : String :=
  "Gap in sequence: expected " ++ natToStr expected ++ ", got " ++ natToStr got

/-- Message of a tenant-isolation violation. -/
def tenantMsg (eventId : String) : String :=
  "Tenant isolation violation: event " ++ eventId ++ " has wrong tenantId"

/-- Message of a balance mismatch. -/
def balanceMsg (expected calculated : ℚ) : String :=
  "Balance mismatch: expected " ++ ratToString expected ++ ", calculated " ++
    ratToString calculated

/-- Sequence-gap errors of the integrity check: each 0-based position `i`
whose event's sequence number differs from `i + 1` is reported
individually. -/
def gapErrorsOf (events : List LedgerEvent) : List String :=
  events.enum.filterMap (fun ie =>
    if ie.2.sequenceNumber ≠ ie.1 + 1 then some (gapMsg (ie.1 + 1) ie.2.sequenceNumber)
    else none)

/-- Tenant-isolation errors of the integrity check. -/
def tenantErrorsOf (tenantId : String) (events : List LedgerEvent) : List String :=
  events.filterMap (fun e =>
    if e.tenantId ≠ tenantId then some (tenantMsg e.id) else none)

/-- Report built by a successful integrity check: gap, tenant and
balance-mismatch errors over the sequence-sorted events, with `valid` true
exactly when no error was accumulated. -/
def integrityReportOf (tenantId accountId : String) (s : St) (bal : AccountBalance) :
    IntegrityReport :=
  let events := sortBySeq (getEventsByAccountId s tenantId accountId)
  let calculatedBalance := events.foldl (fun b e => b + parseAmount e.amount) 0
  let expectedBalance := parseAmount bal.balance
  let balanceErrors :=
    if |calculatedBalance - expectedBalance| > 1 / 10 ^ 8 then
      [balanceMsg expectedBalance calculatedBalance]
    else []
  let errors := gapErrorsOf events ++ tenantErrorsOf tenantId events ++ balanceErrors
  { valid := errors.isEmpty
    accountId := accountId
    expectedBalance := ratToFixed8 expectedBalance
    calculatedBalance := ratToFixed8 calculatedBalance
    eventCount := events.length
    errors := errors }

/-- `Ledger.verifyLedgerIntegrity` (read-only): accumulates sequence-gap,
tenant-isolation and balance-mismatch errors. -/
def verifyLedgerIntegrity (tenantId accountId : String) (s : St) :
    Except LErr IntegrityReport :=
  match getAccount s tenantId accountId with
  | none => Except.error LErr.accountNotFound
  | some _ =>
    match getAccountBalance tenantId accountId s with
    | Except.error err => Except.error err
    | Except.ok bal => Except.ok (integrityReportOf tenantId accountId s bal)

/-! ### Call sequences -/

/-- One engine call, tagged with the tenant the engine is bound to. -/
inductive Op where
  | openAcct : String → OpenAccountParams → Op
  | record : String → RecordEventParams → Op
  | reverse : String → ReverseEventParams → Op
  | balance : String → String → Op
  | statement : String → String → StatementOptions → Op
  | verify : String → String → Op
deriving DecidableEq

/-- Results of the six public operations. -/
inductive OpResult where
  | account : LedgerAccount → OpResult
  | event : LedgerEvent → OpResult
  | balance : AccountBalance → OpResult
  | statement : AccountStatement → OpResult
  | report : IntegrityReport → OpResult
deriving DecidableEq

/-- Execution of one call: result plus successor state.  The read-only
operations return the state unchanged; a raised error changes nothing, since
every failing path of the source precedes its first write. -/
def execOp : Op → St → Except LErr (OpResult × St)
  | Op.openAcct tid p, s => (openAccount tid p s).map (fun rs => (OpResult.account rs.1, rs.2))
  | Op.record tid p, s => (recordEvent tid p s).map (fun rs => (OpResult.event rs.1, rs.2))
  | Op.reverse tid p, s => (reverseEvent tid p s).map (fun rs => (OpResult.event rs.1, rs.2))
  | Op.balance tid aid, s => (getAccountBalance tid aid s).map (fun r => (OpResult.balance r, s))
  | Op.statement tid aid o, s =>
    (getAccountStatement tid aid o s).map (fun r => (OpResult.statement r, s))
  | Op.verify tid aid, s => (verifyLedgerIntegrity tid aid s).map (fun r => (OpResult.report r, s))

/-- State after one call; a failed call leaves the state as it was. -/
def applyOp (op : Op) (s : St) : St :=
  match execOp op s with
  | Except.ok rs => rs.2
  | Except.error _ => s

/-- State after a sequence of calls. -/
def runOps : List Op → St → St
  | [], s => s
  | op :: rest, s => runOps rest (applyOp op s)

/-! ### General lemmas about the storage operations -/

theorem getNextSequenceNumber_congr {s s' : St} (h : s.events = s'.events)
    (tid aid : String) : getNextSequenceNumber s tid aid = getNextSequenceNumber s' tid aid := by
  unfold getNextSequenceNumber getEventsByAccountId
  rw [h]

theorem getEventByIdempotencyKey_congr {s s' : St} (h : s.events = s'.events)
    (tid k : String) : getEventByIdempotencyKey s tid k = getEventByIdempotencyKey s' tid k := by
  unfold getEventByIdempotencyKey
  rw [h]

theorem createEvent_fresh (s : St) (e : LedgerEvent)
    (h : getEventByIdempotencyKey s e.tenantId e.idempotencyKey = none) :
    createEvent s e = Except.ok ({ e with createdAt := s.clock },
      { s with
        events := s.events ++ [{ e with createdAt := s.clock }]
        clock := s.clock + 1 }) := by
  have hany : (s.events.any
      (fun x => x.tenantId == e.tenantId && x.idempotencyKey == e.idempotencyKey)) = false :=
    List.any_eq_false.mpr (List.find?_eq_none.mp h)
  simp [createEvent, hany]

/-! ### Claim C10 -/

/-- C10: the idempotency lookup runs before any validation: whenever the
idempotency key of a `recordEvent` or `reverseEvent` call already maps to a
stored event of the tenant, that stored event is returned with the state
unchanged, regardless of every other parameter of the call (missing account,
mismatched currency, unresolvable original event, already-reversed original,
or an account other than the stored event's). -/
theorem claim10_idempotency_lookup_first :
    (∀ (s : St) (tid : String) (p : RecordEventParams) (e : LedgerEvent),
      getEventByIdempotencyKey s tid p.idempotencyKey = some e →
      recordEvent tid p s = Except.ok (e, s)) ∧
    (∀ (s : St) (tid : String) (p : ReverseEventParams) (e : LedgerEvent),
      getEventByIdempotencyKey s tid p.idempotencyKey = some e →
      reverseEvent tid p s = Except.ok (e, s)) := by
  constructor
  · intro s tid p e h
    simp [recordEvent, h]
  · intro s tid p e h
    simp [reverseEvent, h]

/-- Stored event used by the C10 witness: its account is absent from the
state and its currency is arbitrary, so neither validation could pass. -/
def c10Event : LedgerEvent :=
  { id := "ev-0"
    tenantId := "t1"
    accountId := "gone"
    eventType := "CREDIT"
    amount := "5"
    currency := "USD"
    idempotencyKey := "k0"
    reversesEventId := none
    description := none
    metadata := none
    sequenceNumber := 1
    createdAt := 0 }

/-- State of the C10 witness: one stored event, no accounts at all. -/
def c10State : St := { st0 with events := [c10Event] }

theorem claim10_witness :
    recordEvent "t1"
      { eventId := none, accountId := "nonexistent", eventType := "DEBIT", amount := "7",
        currency := "EUR", idempotencyKey := "k0", description := none, metadata := none }
      c10State = Except.ok (c10Event, c10State) ∧
    reverseEvent "t1"
      { originalEventId := "no-such-event", reversalEventId := none,
        idempotencyKey := "k0", description := none }
      c10State = Except.ok (c10Event, c10State) :=
  ⟨claim10_idempotency_lookup_first.1 c10State "t1" _ c10Event (by decide),
   claim10_idempotency_lookup_first.2 c10State "t1" _ c10Event (by decide)⟩

/-! ### Claim C9 -/

/-- C9: with a fresh idempotency key, `recordEvent` fails with
`ACCOUNT_NOT_FOUND` when the account is absent for the tenant and with
`CURRENCY_MISMATCH` when the account's currency differs from the event's;
in both cases the state is unchanged (no event, no audit record). -/
theorem claim9_recordEvent_validation (s : St) (tid : String) (p : RecordEventParams)
    (hfresh : getEventByIdempotencyKey s tid p.idempotencyKey = none) :
    (getAccount s tid p.accountId = none →
      recordEvent tid p s = Except.error LErr.accountNotFound ∧
      applyOp (Op.record tid p) s = s) ∧
    (∀ account, getAccount s tid p.accountId = some account →
      account.currency ≠ p.currency →
      recordEvent tid p s = Except.error LErr.currencyMismatch ∧
      applyOp (Op.record tid p) s = s) := by
  constructor
  · intro hacct
    have h1 : recordEvent tid p s = Except.error LErr.accountNotFound := by
      simp [recordEvent, hfresh, hacct]
    exact ⟨h1, by simp [applyOp, execOp, h1, Except.map]⟩
  · intro account hacct hcur
    have h1 : recordEvent tid p s = Except.error LErr.currencyMismatch := by
      simp [recordEvent, hfresh, hacct, hcur]
    exact ⟨h1, by simp [applyOp, execOp, h1, Except.map]⟩

/-- Account and state of the C9 witness. -/
def c9Account : LedgerAccount :=
  { id := "acct-1"
    tenantId := "t1"
    accountType := "CASH"
    currency := "USD"
    metadata := none
    createdAt := 0 }

/-- State of the C9 witness: a single `USD` account and no events. -/
def c9State : St := { st0 with accounts := [(accountKey "t1" "acct-1", c9Account)] }

theorem claim9_witness :
    recordEvent "t1"
      { eventId := none, accountId := "missing", eventType := "CREDIT", amount := "1",
        currency := "USD", idempotencyKey := "k1", description := none, metadata := none }
      c9State = Except.error LErr.accountNotFound ∧
    recordEvent "t1"
      { eventId := none, accountId := "acct-1", eventType := "CREDIT", amount := "1",
        currency := "EUR", idempotencyKey := "k1", description := none, metadata := none }
      c9State = Except.error LErr.currencyMismatch :=
  ⟨((claim9_recordEvent_validation c9State "t1" _ (by decide)).1 (by decide)).1,
   ((claim9_recordEvent_validation c9State "t1" _ (by decide)).2 c9Account (by decide)
     (by decide)).1⟩

/-! ### Claim C1 -/

/-- Number of audit records carrying a given action tag. -/
def countAudit (s : St) (action : String) : ℕ :=
  (s.audits.filter (fun a => a.action == action)).length

/-- Expected event created by a successful `recordEvent`. -/
def recNewEvent (tid : String) (p : RecordEventParams) (eid : String) (s : St) : LedgerEvent :=
  { id := eid
    tenantId := tid
    accountId := p.accountId
    eventType := p.eventType
    amount := p.amount
    currency := p.currency
    idempotencyKey := p.idempotencyKey
    reversesEventId := none
    description := jsOrNone p.description
    metadata := p.metadata
    sequenceNumber := getNextSequenceNumber s tid p.accountId
    createdAt := s.clock }

/-- Expected audit record emitted by a successful `recordEvent`. -/
def recAudit (tid : String) (p : RecordEventParams) (eid audId : String) (s : St) : AuditEvent :=
  { id := audId
    tenantId := tid
    entityType := "event"
    entityId := eid
    action := "EVENT_RECORDED"
    actorId := none
    payload := some (encodePayload [("accountId", p.accountId), ("eventType", p.eventType),
      ("amount", p.amount), ("currency", p.currency)])
    createdAt := s.clock + 1 }

/-- Expected successor state of a successful `recordEvent`. -/
def recNewState (tid : String) (p : RecordEventParams) (eid audId : String) (nu : ℕ)
    (s : St) : St :=
  { accounts := s.accounts
    events := s.events ++ [recNewEvent tid p eid s]
    audits := s.audits ++ [recAudit tid p eid audId s]
    clock := s.clock + 2
    nextUuid := nu }

/-- Shape of a successful `recordEvent`: the created event's fields, and the
successor state's three collections. -/
theorem recordEvent_success (s : St) (tid : String) (p : RecordEventParams)
    (account : LedgerAccount)
    (hfresh : getEventByIdempotencyKey s tid p.idempotencyKey = none)
    (hacct : getAccount s tid p.accountId = some account)
    (hcur : account.currency = p.currency) :
    ∃ ev s1 aud,
      recordEvent tid p s = Except.ok (ev, s1) ∧
      ev.tenantId = tid ∧
      ev.accountId = p.accountId ∧
      ev.eventType = p.eventType ∧
      ev.amount = p.amount ∧
      ev.currency = p.currency ∧
      ev.idempotencyKey = p.idempotencyKey ∧
      ev.reversesEventId = none ∧
      ev.sequenceNumber = getNextSequenceNumber s tid p.accountId ∧
      s1.accounts = s.accounts ∧
      s1.events = s.events ++ [ev] ∧
      s1.audits = s.audits ++ [aud] ∧
      aud.action = "EVENT_RECORDED" := by
  have hany : (s.events.any
      (fun x => x.tenantId == tid && x.idempotencyKey == p.idempotencyKey)) = false :=
    List.any_eq_false.mpr (List.find?_eq_none.mp hfresh)
  rcases hgen : jsOrNone p.eventId with _ | i
  · have hrec : recordEvent tid p s = Except.ok
        (recNewEvent tid p ("uuid-" ++ natToStr s.nextUuid) s,
         recNewState tid p ("uuid-" ++ natToStr s.nextUuid)
           ("uuid-" ++ natToStr (s.nextUuid + 1)) (s.nextUuid + 2) s) := by
      simp only [recordEvent, hfresh, hacct, if_neg (not_not_intro hcur), hgen, createEvent,
        emitAuditEvent, freshUuid, hany, Bool.false_eq_true, if_false]
      rfl
    exact ⟨_, _, _, hrec, rfl, rfl, rfl, rfl, rfl, rfl, rfl, rfl, rfl, rfl, rfl, rfl⟩
  · have hrec : recordEvent tid p s = Except.ok
        (recNewEvent tid p i s,
         recNewState tid p i ("uuid-" ++ natToStr s.nextUuid) (s.nextUuid + 1) s) := by
      simp only [recordEvent, hfresh, hacct, if_neg (not_not_intro hcur), hgen, createEvent,
        emitAuditEvent, freshUuid, hany, Bool.false_eq_true, if_false]
      rfl
    exact ⟨_, _, _, hrec, rfl, rfl, rfl, rfl, rfl, rfl, rfl, rfl, rfl, rfl, rfl, rfl⟩
/-- C1: a `recordEvent` call whose idempotency key is already stored returns
the stored event verbatim (the first call's amount, not the new call's), with
no new event, no new audit record and no error: retrying after a successful
call yields the same event and the same state, the first call added exactly
one event, and exactly one more `EVENT_RECORDED` audit entry exists than
before the first call. -/
theorem claim1_recordEvent_idempotent_retry (s : St) (tid : String)
    (p q : RecordEventParams) (e1 : LedgerEvent) (s1 : St)
    (hfresh : getEventByIdempotencyKey s tid p.idempotencyKey = none)
    (hq : q.idempotencyKey = p.idempotencyKey)
    (h1 : recordEvent tid p s = Except.ok (e1, s1)) :
    recordEvent tid q s1 = Except.ok (e1, s1) ∧
    e1.amount = p.amount ∧
    s1.events.length = s.events.length + 1 ∧
    countAudit s1 "EVENT_RECORDED" = countAudit s "EVENT_RECORDED" + 1 := by
  rcases hacct : getAccount s tid p.accountId with _ | account
  · have hbad := h1
    simp [recordEvent, hfresh, hacct] at hbad
  · by_cases hcur : account.currency = p.currency
    · obtain ⟨ev, s1', aud, hrec, hten, hacc, hety, ham, hcurr, hkey, hrev, hseq, haccs,
        hevs, hauds, haction⟩ := recordEvent_success s tid p account hfresh hacct hcur
      rw [hrec] at h1
      simp only [Except.ok.injEq, Prod.mk.injEq] at h1
      obtain ⟨he, hs⟩ := h1
      subst he
      subst hs
      have hlook : getEventByIdempotencyKey s1' tid q.idempotencyKey = some ev := by
        unfold getEventByIdempotencyKey
        rw [hq, hevs, List.find?_append]
        rw [show (List.find?
          (fun e => e.tenantId == tid && e.idempotencyKey == p.idempotencyKey) s.events)
          = none from hfresh]
        simp [List.find?_cons, hten, hkey]
      refine ⟨?_, ham, ?_, ?_⟩
      · simp [recordEvent, hlook]
      · rw [hevs]
        simp
      · unfold countAudit
        rw [hauds, List.filter_append]
        simp [haction]
    · have hbad := h1
      simp [recordEvent, hfresh, hacct, hcur] at hbad

/-- Account of the C1 witness. -/
def c1Account : LedgerAccount :=
  { id := "acct-1"
    tenantId := "t1"
    accountType := "CASH"
    currency := "USD"
    metadata := none
    createdAt := 0 }

/-- Starting state of the C1 witness: one `USD` account, no events. -/
def c1State : St := { st0 with accounts := [(accountKey "t1" "acct-1", c1Account)] }

/-- First call of the C1 witness. -/
def c1P : RecordEventParams :=
  { eventId := some "ev-1"
    accountId := "acct-1"
    eventType := "CREDIT"
    amount := "100.00"
    currency := "USD"
    idempotencyKey := "kA"
    description := none
    metadata := none }

/-- Retry of the C1 witness: same idempotency key, different amount. -/
def c1Q : RecordEventParams := { c1P with amount := "999", eventId := some "ev-2" }

/-- Event created by the first C1 call. -/
def c1E1 : LedgerEvent := recNewEvent "t1" c1P "ev-1" c1State

/-- State after the first C1 call. -/
def c1S1 : St := recNewState "t1" c1P "ev-1" "uuid-0" 1 c1State

theorem claim1_witness :
    recordEvent "t1" c1Q c1S1 = Except.ok (c1E1, c1S1) ∧
    c1E1.amount = c1P.amount ∧
    c1S1.events.length = c1State.events.length + 1 ∧
    countAudit c1S1 "EVENT_RECORDED" = countAudit c1State "EVENT_RECORDED" + 1 :=
  claim1_recordEvent_idempotent_retry c1State "t1" c1P c1Q c1E1 c1S1 rfl rfl rfl

/-! ### Claim C4 -/

theorem foldl_max_init (l : List ℕ) : ∀ a : ℕ, a ≤ l.foldl max a := by
  induction l with
  | nil => intro a; exact le_rfl
  | cons b t ih => intro a; exact le_trans (le_max_left a b) (ih (max a b))

theorem foldl_max_le (l : List ℕ) : ∀ (a x : ℕ), x ∈ l → x ≤ l.foldl max a := by
  induction l with
  | nil => intro a x hx; simp at hx
  | cons b t ih =>
    intro a x hx
    rcases List.mem_cons.mp hx with rfl | hx
    · exact le_trans (le_max_right a x) (foldl_max_init t (max a x))
    · exact ih (max a b) x hx

theorem foldl_max_mem (l : List ℕ) : ∀ a : ℕ, l.foldl max a = a ∨ l.foldl max a ∈ l := by
  induction l with
  | nil => intro a; exact Or.inl rfl
  | cons b t ih =>
    intro a
    rw [List.foldl_cons]
    rcases ih (max a b) with h | h
    · rw [h]
      rcases max_choice a b with hm | hm
      · rw [hm]; exact Or.inl rfl
      · rw [hm]; exact Or.inr (List.mem_cons_self b t)
    · exact Or.inr (List.mem_cons_of_mem b h)

theorem den_add_div (a b L : ℕ) : (((a : ℚ) + (b : ℚ) / 10 ^ L)).den ∣ 10 ^ L := by
  have hx : ((a : ℚ) + (b : ℚ) / 10 ^ L) = Rat.divInt ((a : ℤ) * 10 ^ L + (b : ℤ)) ((10 : ℤ) ^ L) := by
    rw [Rat.divInt_eq_div]
    have h10 : ((10 : ℚ)) ^ L ≠ 0 := by positivity
    push_cast
    field_simp
  rw [hx]
  have hdvd := Rat.den_dvd ((a : ℤ) * 10 ^ L + (b : ℤ)) ((10 : ℤ) ^ L)
  have hcast : ((Rat.divInt ((a : ℤ) * 10 ^ L + (b : ℤ)) ((10 : ℤ) ^ L)).den : ℤ) ∣
      (((10 ^ L : ℕ) : ℤ)) := by
    push_cast
    exact hdvd
  exact_mod_cast hcast

theorem parseUnsigned_den_dvd (cs : List Char) :
    ∃ L, (parseUnsignedChars cs).den ∣ 10 ^ L := by
  refine ⟨(match cs.dropWhile isDigitChar with
    | '.' :: r => r.takeWhile isDigitChar
    | _ => []).length, ?_⟩
  simp only [parseUnsignedChars]
  exact den_add_div _ _ _

theorem parseAmountChars_cases (cs : List Char) :
    (∃ l, parseAmountChars cs = parseUnsignedChars l) ∨
    (∃ l, parseAmountChars cs = -parseUnsignedChars l) := by
  cases cs with
  | nil => exact Or.inl ⟨[], rfl⟩
  | cons c r =>
    by_cases h1 : c = '-'
    · subst h1; exact Or.inr ⟨r, by simp [parseAmountChars]⟩
    · by_cases h2 : c = '+'
      · subst h2; exact Or.inl ⟨r, by simp [parseAmountChars]⟩
      · exact Or.inl ⟨c :: r, by simp [parseAmountChars, h1, h2]⟩

theorem parseAmount_den_dvd (a : String) : ∃ L, (parseAmount a).den ∣ 10 ^ L := by
  unfold parseAmount
  rcases parseAmountChars_cases a.toList with ⟨l, hl⟩ | ⟨l, hl⟩
  · rw [hl]; exact parseUnsigned_den_dvd l
  · rw [hl]
    obtain ⟨L, hL⟩ := parseUnsigned_den_dvd l
    exact ⟨L, by rwa [Rat.neg_den]⟩

/-- Expected event created by a successful `reverseEvent`. -/
def revNewEvent (tid : String) (p : ReverseEventParams) (orig : LedgerEvent)
    (rid : String) (s : St) : LedgerEvent :=
  { id := rid
    tenantId := tid
    accountId := orig.accountId
    eventType := "REVERSAL"
    amount := ratToString (parseAmount orig.amount * (-1))
    currency := orig.currency
    idempotencyKey := p.idempotencyKey
    reversesEventId := some p.originalEventId
    description := some (jsOr p.description ("Reversal of event " ++ p.originalEventId))
    metadata := none
    sequenceNumber := getNextSequenceNumber s tid orig.accountId
    createdAt := s.clock }

/-- Expected audit record emitted by a successful `reverseEvent`. -/
def revAudit (tid : String) (p : ReverseEventParams) (orig : LedgerEvent)
    (rid audId : String) (s : St) : AuditEvent :=
  { id := audId
    tenantId := tid
    entityType := "event"
    entityId := rid
    action := "EVENT_REVERSED"
    actorId := none
    payload := some (encodePayload [("originalEventId", p.originalEventId),
      ("reversalAmount", ratToString (parseAmount orig.amount * (-1)))])
    createdAt := s.clock + 1 }

/-- Expected successor state of a successful `reverseEvent`. -/
def revNewState (tid : String) (p : ReverseEventParams) (orig : LedgerEvent)
    (rid audId : String) (nu : ℕ) (s : St) : St :=
  { accounts := s.accounts
    events := s.events ++ [revNewEvent tid p orig rid s]
    audits := s.audits ++ [revAudit tid p orig rid audId s]
    clock := s.clock + 2
    nextUuid := nu }

/-- Shape of a successful `reverseEvent`. -/
theorem reverseEvent_success (s : St) (tid : String) (p : ReverseEventParams)
    (orig : LedgerEvent)
    (hfresh : getEventByIdempotencyKey s tid p.idempotencyKey = none)
    (horig : getEventById s tid p.originalEventId = some orig)
    (hnorev : ((getEventsByAccountId s tid orig.accountId).any
      (fun e => e.reversesEventId == some p.originalEventId)) = false) :
    ∃ rev s1 aud,
      reverseEvent tid p s = Except.ok (rev, s1) ∧
      rev.tenantId = tid ∧
      rev.accountId = orig.accountId ∧
      rev.eventType = "REVERSAL" ∧
      rev.amount = ratToString (parseAmount orig.amount * (-1)) ∧
      rev.currency = orig.currency ∧
      rev.idempotencyKey = p.idempotencyKey ∧
      rev.reversesEventId = some p.originalEventId ∧
      rev.description = some (jsOr p.description ("Reversal of event " ++ p.originalEventId)) ∧
      rev.sequenceNumber = getNextSequenceNumber s tid orig.accountId ∧
      s1.accounts = s.accounts ∧
      s1.events = s.events ++ [rev] ∧
      s1.audits = s.audits ++ [aud] ∧
      aud.action = "EVENT_REVERSED" := by
  have hany : (s.events.any
      (fun x => x.tenantId == tid && x.idempotencyKey == p.idempotencyKey)) = false :=
    List.any_eq_false.mpr (List.find?_eq_none.mp hfresh)
  rcases hgen : jsOrNone p.reversalEventId with _ | i
  · have hrec : reverseEvent tid p s = Except.ok
        (revNewEvent tid p orig ("uuid-" ++ natToStr s.nextUuid) s,
         revNewState tid p orig ("uuid-" ++ natToStr s.nextUuid)
           ("uuid-" ++ natToStr (s.nextUuid + 1)) (s.nextUuid + 2) s) := by
      simp only [reverseEvent, hfresh, horig, hnorev, Bool.false_eq_true, if_false, hgen,
        createEvent, emitAuditEvent, freshUuid, hany]
      rfl
    exact ⟨_, _, _, hrec, rfl, rfl, rfl, rfl, rfl, rfl, rfl, rfl, rfl, rfl, rfl, rfl, rfl⟩
  · have hrec : reverseEvent tid p s = Except.ok
        (revNewEvent tid p orig i s,
         revNewState tid p orig i ("uuid-" ++ natToStr s.nextUuid) (s.nextUuid + 1) s) := by
      simp only [reverseEvent, hfresh, horig, hnorev, Bool.false_eq_true, if_false, hgen,
        createEvent, emitAuditEvent, freshUuid, hany]
      rfl
    exact ⟨_, _, _, hrec, rfl, rfl, rfl, rfl, rfl, rfl, rfl, rfl, rfl, rfl, rfl, rfl, rfl⟩

theorem jsOr_of_none {o : Option String} (h : jsOrNone o = none) (d : String) :
    jsOr o d = d := by
  cases o with
  | none => rfl
  | some v =>
    by_cases hv : v = ""
    · simp [jsOr, hv]
    · simp [jsOrNone, hv] at h

/-- Reversal shape under the exact-rational idealization `reverseEvent`:
the created event's amount is the exact negation of the original amount.
The program negates the binary64 parse instead; this lemma documents the
idealized layer, and the C4 theorem below covers the faithful one. -/
theorem reverseEvent_negates_rat (s : St) (tid : String) (p : ReverseEventParams)
    (orig : LedgerEvent)
    (hfresh : getEventByIdempotencyKey s tid p.idempotencyKey = none)
    (horig : getEventById s tid p.originalEventId = some orig)
    (hnorev : ∀ x ∈ getEventsByAccountId s tid orig.accountId,
      x.reversesEventId ≠ some p.originalEventId) :
    ∃ rev s1, reverseEvent tid p s = Except.ok (rev, s1) ∧
      rev.eventType = "REVERSAL" ∧
      parseAmount rev.amount = -parseAmount orig.amount ∧
      rev.currency = orig.currency ∧
      rev.reversesEventId = some p.originalEventId ∧
      rev.sequenceNumber = getNextSequenceNumber s tid orig.accountId ∧
      (∀ x ∈ getEventsByAccountId s tid orig.accountId,
        x.sequenceNumber < rev.sequenceNumber) ∧
      (jsOrNone p.description = none →
        rev.description = some ("Reversal of event " ++ p.originalEventId)) ∧
      (∀ e ∈ s.events, e ∈ s1.events) := by
  have hnorevB : ((getEventsByAccountId s tid orig.accountId).any
      (fun e => e.reversesEventId == some p.originalEventId)) = false := by
    rw [List.any_eq_false]
    intro x hx
    simpa using hnorev x hx
  obtain ⟨rev, s1, aud, hrec, hten, hacc, hety, ham, hcur, hkey, hrev, hdesc, hseq, haccs,
    hevs, hauds, haction⟩ := reverseEvent_success s tid p orig hfresh horig hnorevB
  refine ⟨rev, s1, hrec, hety, ?_, hcur, hrev, hseq, ?_, ?_, ?_⟩
  · obtain ⟨L, hL⟩ := parseAmount_den_dvd orig.amount
    have hmul : parseAmount orig.amount * (-1) = -parseAmount orig.amount := by ring
    have hden : ((parseAmount orig.amount * (-1)).den) ∣ 10 ^ L := by
      rw [hmul, Rat.neg_den]
      exact hL
    rw [ham, parseAmount_ratToString L hden, hmul]
  · intro x hx
    rw [hseq]
    have hne2 : getEventsByAccountId s tid orig.accountId ≠ [] := by
      intro h0
      rw [h0] at hx
      simp at hx
    have hne : (getEventsByAccountId s tid orig.accountId).isEmpty = false := by
      cases hb : (getEventsByAccountId s tid orig.accountId).isEmpty
      · rfl
      · exact absurd (List.isEmpty_iff.mp hb) hne2
    simp only [getNextSequenceNumber, hne, Bool.false_eq_true, if_false]
    have hx' : x.sequenceNumber ∈
        (getEventsByAccountId s tid orig.accountId).map (fun e => e.sequenceNumber) :=
      List.mem_map_of_mem _ hx
    exact Nat.lt_succ_of_le (foldl_max_le _ 0 _ hx')
  · intro hd
    rw [hdesc, jsOr_of_none hd]
  · intro e he
    rw [hevs]
    exact List.mem_append_left _ he

/-- Original event of the C4 witness. -/
def c4Orig : LedgerEvent :=
  { id := "ev-1"
    tenantId := "t1"
    accountId := "acct-1"
    eventType := "CREDIT"
    amount := "100.00"
    currency := "USD"
    idempotencyKey := "k1"
    reversesEventId := none
    description := none
    metadata := none
    sequenceNumber := 1
    createdAt := 0 }

/-- State of the C4 witness: one stored original event. -/
def c4State : St := { st0 with events := [c4Orig] }

/-- Reversal call of the C4 witness. -/
def c4P : ReverseEventParams :=
  { originalEventId := "ev-1"
    reversalEventId := some "rev-1"
    idempotencyKey := "k2"
    description := none }

/-! ### Shape of the state after one call -/

theorem openAccount_ok_events (tid : String) (p : OpenAccountParams) (s : St)
    (r : LedgerAccount) (s1 : St)
    (h : openAccount tid p s = Except.ok (r, s1)) : s1.events = s.events := by
  unfold openAccount at h
  rcases hgen : jsOrNone p.accountId with _ | i <;> rw [hgen] at h <;> simp only [] at h
  · rcases hacct : getAccount (freshUuid s).2 tid (freshUuid s).1 with _ | a <;> rw [hacct] at h
    · simp only [Except.ok.injEq, Prod.mk.injEq] at h
      obtain ⟨h1, h2⟩ := h
      subst h2
      rfl
    · simp at h
  · rcases hacct : getAccount s tid i with _ | a <;> rw [hacct] at h
    · simp only [Except.ok.injEq, Prod.mk.injEq] at h
      obtain ⟨h1, h2⟩ := h
      subst h2
      rfl
    · simp at h

theorem recordEvent_ok_events (tid : String) (p : RecordEventParams) (s : St)
    (ev : LedgerEvent) (s1 : St)
    (h : recordEvent tid p s = Except.ok (ev, s1)) :
    s1.events = s.events ∨
    (s1.events = s.events ++ [ev] ∧ ev.tenantId = tid ∧ ev.accountId = p.accountId ∧
     ev.sequenceNumber = getNextSequenceNumber s tid p.accountId ∧
     ev.reversesEventId = none) := by
  rcases hk : getEventByIdempotencyKey s tid p.idempotencyKey with _ | e
  · rcases hacct : getAccount s tid p.accountId with _ | account
    · simp [recordEvent, hk, hacct] at h
    · by_cases hcur : account.currency = p.currency
      · obtain ⟨ev', s1', aud, hrec, hten, hacc, hety, ham, hcurr, hkey, hrev, hseq, haccs,
          hevs, hauds, haction⟩ := recordEvent_success s tid p account hk hacct hcur
        rw [hrec] at h
        simp only [Except.ok.injEq, Prod.mk.injEq] at h
        obtain ⟨he, hs⟩ := h
        subst he
        subst hs
        exact Or.inr ⟨hevs, hten, hacc, hseq, hrev⟩
      · simp [recordEvent, hk, hacct, hcur] at h
  · have : recordEvent tid p s = Except.ok (e, s) := by simp [recordEvent, hk]
    rw [this] at h
    simp only [Except.ok.injEq, Prod.mk.injEq] at h
    obtain ⟨he, hs⟩ := h
    subst hs
    exact Or.inl rfl

theorem reverseEvent_ok_events (tid : String) (p : ReverseEventParams) (s : St)
    (ev : LedgerEvent) (s1 : St)
    (h : reverseEvent tid p s = Except.ok (ev, s1)) :
    s1.events = s.events ∨
    (s1.events = s.events ++ [ev] ∧ ev.tenantId = tid ∧
     ∃ orig, getEventById s tid p.originalEventId = some orig ∧
       ev.accountId = orig.accountId ∧
       ev.sequenceNumber = getNextSequenceNumber s tid orig.accountId ∧
       ev.reversesEventId = some p.originalEventId ∧
       ∀ x ∈ getEventsByAccountId s tid orig.accountId,
         x.reversesEventId ≠ some p.originalEventId) := by
  rcases hk : getEventByIdempotencyKey s tid p.idempotencyKey with _ | e
  · rcases horig : getEventById s tid p.originalEventId with _ | orig
    · simp [reverseEvent, hk, horig] at h
    · rcases hb : ((getEventsByAccountId s tid orig.accountId).any
        (fun e => e.reversesEventId == some p.originalEventId)) with _ | _
      · obtain ⟨rev, s1', aud, hrec, hten, hacc, hety, ham, hcurr, hkey, hrev, hdesc, hseq,
          haccs, hevs, hauds, haction⟩ := reverseEvent_success s tid p orig hk horig hb
        rw [hrec] at h
        simp only [Except.ok.injEq, Prod.mk.injEq] at h
        obtain ⟨he, hs⟩ := h
        subst he
        subst hs
        refine Or.inr ⟨hevs, hten, orig, rfl, hacc, hseq, hrev, ?_⟩
        intro x hx
        have := List.any_eq_false.mp hb x hx
        simpa using this
      · simp [reverseEvent, hk, horig, hb] at h
  · have : reverseEvent tid p s = Except.ok (e, s) := by simp [reverseEvent, hk]
    rw [this] at h
    simp only [Except.ok.injEq, Prod.mk.injEq] at h
    obtain ⟨he, hs⟩ := h
    subst hs
    exact Or.inl rfl

/-- Events component of the state after one call: either untouched, or one
appended event whose sequence number is the account's next sequence number;
an appended reversal resolves its original and was the first reversal
targeting it. -/
theorem applyOp_events_shape (op : Op) (s : St) :
    (applyOp op s).events = s.events ∨
    ∃ ev, (applyOp op s).events = s.events ++ [ev] ∧
      ev.sequenceNumber = getNextSequenceNumber s ev.tenantId ev.accountId ∧
      (ev.reversesEventId = none ∨
        ∃ oid orig, ev.reversesEventId = some oid ∧
          getEventById s ev.tenantId oid = some orig ∧
          ev.accountId = orig.accountId ∧
          ∀ x ∈ getEventsByAccountId s ev.tenantId orig.accountId,
            x.reversesEventId ≠ some oid) := by
  cases op with
  | openAcct tid p =>
    rcases hres : openAccount tid p s with err | rs
    · left
      simp [applyOp, execOp, hres, Except.map]
    · left
      have h := openAccount_ok_events tid p s rs.1 rs.2 (by rw [hres])
      simp [applyOp, execOp, hres, Except.map, h]
  | record tid p =>
    rcases hres : recordEvent tid p s with err | rs
    · left
      simp [applyOp, execOp, hres, Except.map]
    · have happ : applyOp (Op.record tid p) s = rs.2 := by
        simp [applyOp, execOp, hres, Except.map]
      rcases recordEvent_ok_events tid p s rs.1 rs.2 (by rw [hres]) with heq | ⟨heq, hten, hacc, hseq, hrev⟩
      · left
        rw [happ, heq]
      · right
        refine ⟨rs.1, by rw [happ, heq], ?_, Or.inl hrev⟩
        rw [hten, hacc]
        exact hseq
  | reverse tid p =>
    rcases hres : reverseEvent tid p s with err | rs
    · left
      simp [applyOp, execOp, hres, Except.map]
    · have happ : applyOp (Op.reverse tid p) s = rs.2 := by
        simp [applyOp, execOp, hres, Except.map]
      rcases reverseEvent_ok_events tid p s rs.1 rs.2 (by rw [hres]) with heq |
        ⟨heq, hten, orig, horig, hacc, hseq, hrev, hall⟩
      · left
        rw [happ, heq]
      · right
        refine ⟨rs.1, by rw [happ, heq], ?_, Or.inr ⟨p.originalEventId, orig, hrev, ?_, hacc, ?_⟩⟩
        · rw [hten, hacc]
          exact hseq
        · rw [hten]
          exact horig
        · rw [hten]
          exact hall
  | balance tid aid =>
    rcases hres : getAccountBalance tid aid s with err | b <;> left <;>
      simp [applyOp, execOp, hres, Except.map]
  | statement tid aid o =>
    rcases hres : getAccountStatement tid aid o s with err | st <;> left <;>
      simp [applyOp, execOp, hres, Except.map]
  | verify tid aid =>
    rcases hres : verifyLedgerIntegrity tid aid s with err | r <;> left <;>
      simp [applyOp, execOp, hres, Except.map]

/-! ### Claim C2 -/

/-- Sequence numbers of one account's events, in storage order. -/
def seqList (s : St) (tid aid : String) : List ℕ :=
  (getEventsByAccountId s tid aid).map (fun e => e.sequenceNumber)

theorem foldl_max_range1 (n : ℕ) : (List.range' 1 n).foldl max 0 = n := by
  induction n with
  | zero => rfl
  | succ m ih =>
    rw [List.range'_concat, List.foldl_append]
    simp only [List.foldl_cons, List.foldl_nil, ih]
    omega

/-- Next sequence number of an account whose stored numbers are the
contiguous run `1..n`. -/
theorem getNextSequenceNumber_of_contiguous (s : St) (tid aid : String)
    (h : seqList s tid aid = List.range' 1 (seqList s tid aid).length) :
    getNextSequenceNumber s tid aid = (seqList s tid aid).length + 1 := by
  by_cases hl : getEventsByAccountId s tid aid = []
  · have hsl : seqList s tid aid = [] := by unfold seqList; rw [hl]; rfl
    rw [hsl]
    unfold getNextSequenceNumber
    simp [hl]
  · have hne : (getEventsByAccountId s tid aid).isEmpty = false := by
      cases hb : (getEventsByAccountId s tid aid).isEmpty
      · rfl
      · exact absurd (List.isEmpty_iff.mp hb) hl
    unfold getNextSequenceNumber
    simp only [hne, Bool.false_eq_true, if_false]
    have hmap : (getEventsByAccountId s tid aid).map (fun e => e.sequenceNumber) =
        seqList s tid aid := rfl
    rw [hmap, h]
    simp [foldl_max_range1, List.length_range']

theorem seqList_preserved (op : Op) (s : St) (tid aid : String)
    (h : seqList s tid aid = List.range' 1 (seqList s tid aid).length) :
    seqList (applyOp op s) tid aid =
      List.range' 1 (seqList (applyOp op s) tid aid).length := by
  rcases applyOp_events_shape op s with heq | ⟨ev, heq, hseq, hcase⟩
  · have heq2 : seqList (applyOp op s) tid aid = seqList s tid aid := by
      unfold seqList getEventsByAccountId
      rw [heq]
    rw [heq2]
    exact h
  · have hsplit : seqList (applyOp op s) tid aid = seqList s tid aid ++
        (if ev.tenantId == tid && ev.accountId == aid then [ev.sequenceNumber] else []) := by
      unfold seqList getEventsByAccountId
      rw [heq, List.filter_append, List.map_append]
      cases hp : (ev.tenantId == tid && ev.accountId == aid) <;> simp [hp]
    cases hp : (ev.tenantId == tid && ev.accountId == aid)
    · rw [hsplit, hp]
      simp only [Bool.false_eq_true, if_false, List.append_nil]
      exact h
    · have hpt : ev.tenantId = tid ∧ ev.accountId = aid := by
        simpa [Bool.and_eq_true, beq_iff_eq] using hp
      have hnext : ev.sequenceNumber = (seqList s tid aid).length + 1 := by
        rw [hseq, hpt.1, hpt.2]
        exact getNextSequenceNumber_of_contiguous s tid aid h
      rw [hsplit, hp]
      simp only [if_true, List.length_append, List.length_singleton]
      rw [h, hnext]
      have hconcat := @List.range'_concat 1 1 (seqList s tid aid).length
      simp only [one_mul] at hconcat
      rw [List.length_range']
      rw [hconcat]
      have : 1 + (seqList s tid aid).length = (seqList s tid aid).length + 1 := by omega
      rw [this, h, List.length_range']

theorem runOps_seq_inv (ops : List Op) (s : St) (tid aid : String)
    (h : seqList s tid aid = List.range' 1 (seqList s tid aid).length) :
    seqList (runOps ops s) tid aid =
      List.range' 1 (seqList (runOps ops s) tid aid).length := by
  induction ops generalizing s with
  | nil => exact h
  | cons op rest ih => exact ih (applyOp op s) (seqList_preserved op s tid aid h)

/-- C2: `getNextSequenceNumber` is `1` for an account with no events and the
current maximum plus one otherwise, and under any sequence of engine calls
starting from an account with no events, the stored sequence numbers of that
account are exactly the contiguous run `1..N` in storage order, where `N` is
the number of its events — no gaps, no repeats. -/
theorem claim2_sequence_contiguity :
    (∀ (s : St) (tid aid : String), getEventsByAccountId s tid aid = [] →
      getNextSequenceNumber s tid aid = 1) ∧
    (∀ (s : St) (tid aid : String), getEventsByAccountId s tid aid ≠ [] →
      ∃ mx, mx ∈ seqList s tid aid ∧ (∀ x ∈ seqList s tid aid, x ≤ mx) ∧
        getNextSequenceNumber s tid aid = mx + 1) ∧
    (∀ (ops : List Op) (s0 : St) (tid aid : String),
      getEventsByAccountId s0 tid aid = [] →
      seqList (runOps ops s0) tid aid =
        List.range' 1 (getEventsByAccountId (runOps ops s0) tid aid).length) := by
  refine ⟨?_, ?_, ?_⟩
  · intro s tid aid h
    unfold getNextSequenceNumber
    simp [h]
  · intro s tid aid h
    have hne : (getEventsByAccountId s tid aid).isEmpty = false := by
      cases hb : (getEventsByAccountId s tid aid).isEmpty
      · rfl
      · exact absurd (List.isEmpty_iff.mp hb) h
    have hlne : seqList s tid aid ≠ [] := by
      unfold seqList
      simpa using h
    refine ⟨(seqList s tid aid).foldl max 0, ?_, fun x hx => foldl_max_le _ 0 x hx, ?_⟩
    · rcases foldl_max_mem (seqList s tid aid) 0 with h0 | hm
      · rw [h0]
        cases hl : seqList s tid aid with
        | nil => exact absurd hl hlne
        | cons a t =>
          have ha : a ≤ (seqList s tid aid).foldl max 0 :=
            foldl_max_le _ 0 a (by rw [hl]; exact List.mem_cons_self a t)
          rw [h0] at ha
          have : a = 0 := Nat.le_zero.mp ha
          rw [← this]
          exact List.mem_cons_self a t
      · exact hm
    · unfold getNextSequenceNumber
      simp only [hne, Bool.false_eq_true, if_false]
      rfl
  · intro ops s0 tid aid h
    have h0 : seqList s0 tid aid = List.range' 1 (seqList s0 tid aid).length := by
      unfold seqList
      rw [h]
      rfl
    have := runOps_seq_inv ops s0 tid aid h0
    rw [this]
    unfold seqList
    rw [List.length_map]

/-- Account of the C2 witness. -/
def c2Account : LedgerAccount :=
  { id := "acct-2"
    tenantId := "t2"
    accountType := "CASH"
    currency := "USD"
    metadata := none
    createdAt := 0 }

/-- Starting state of the C2 witness. -/
def c2State : St := { st0 with accounts := [(accountKey "t2" "acct-2", c2Account)] }

/-- First recording of the C2 witness. -/
def c2P1 : RecordEventParams :=
  { eventId := some "e1"
    accountId := "acct-2"
    eventType := "CREDIT"
    amount := "10"
    currency := "USD"
    idempotencyKey := "k1"
    description := none
    metadata := none }

/-- Second recording of the C2 witness. -/
def c2P2 : RecordEventParams :=
  { c2P1 with
    eventId := some "e2"
    eventType := "DEBIT"
    amount := "-4"
    idempotencyKey := "k2" }

/-- Reversal call of the C2 witness. -/
def c2P3 : ReverseEventParams :=
  { originalEventId := "e1"
    reversalEventId := some "r1"
    idempotencyKey := "k3"
    description := none }

/-- Three sequential calls of the C2 witness: two recordings and a reversal. -/
def c2Ops : List Op := [Op.record "t2" c2P1, Op.record "t2" c2P2, Op.reverse "t2" c2P3]

theorem claim2_witness :
    seqList (runOps c2Ops c2State) "t2" "acct-2" =
      List.range' 1 (getEventsByAccountId (runOps c2Ops c2State) "t2" "acct-2").length :=
  claim2_sequence_contiguity.2.2 c2Ops c2State "t2" "acct-2" rfl

/-! ### Claim C5 -/

/-- Stored reversal events of a tenant targeting a given original event id. -/
def reversalsTargeting (s : St) (tid oid : String) : List LedgerEvent :=
  s.events.filter (fun e => e.tenantId == tid && e.reversesEventId == some oid)

/-- Reversal invariant: every original event id is targeted by at most one
stored reversal of its tenant, and every stored reversal resolves its
original event inside its own account. -/
def RevInv (s : St) : Prop :=
  ∀ tid oid : String,
    (reversalsTargeting s tid oid).length ≤ 1 ∧
    ∀ e ∈ s.events, e.tenantId = tid → e.reversesEventId = some oid →
      ∃ orig, getEventById s tid oid = some orig ∧ e.accountId = orig.accountId

theorem RevInv_st0 : RevInv st0 := by
  intro tid oid
  constructor
  · simp [reversalsTargeting, st0]
  · intro e he
    simp [st0] at he

theorem RevInv_preserved (op : Op) (s : St) (h : RevInv s) : RevInv (applyOp op s) := by
  rcases applyOp_events_shape op s with heq | ⟨ev, heq, hseq, hcase⟩
  · intro tid oid
    obtain ⟨hc, hr⟩ := h tid oid
    have h1 : reversalsTargeting (applyOp op s) tid oid = reversalsTargeting s tid oid := by
      unfold reversalsTargeting
      rw [heq]
    have h2 : ∀ q, getEventById (applyOp op s) tid q = getEventById s tid q := by
      intro q
      unfold getEventById
      rw [heq]
    refine ⟨by rw [h1]; exact hc, ?_⟩
    intro e he h3 h4
    rw [heq] at he
    obtain ⟨orig, ho, ha⟩ := hr e he h3 h4
    exact ⟨orig, by rw [h2]; exact ho, ha⟩
  · intro tid oid
    obtain ⟨hc, hr⟩ := h tid oid
    have hstable : ∀ (q : String) (orig : LedgerEvent),
        getEventById s tid q = some orig →
        getEventById (applyOp op s) tid q = some orig := by
      intro q orig hq
      unfold getEventById at hq ⊢
      rw [heq, List.find?_append, hq]
      rfl
    constructor
    · have hsplit : reversalsTargeting (applyOp op s) tid oid =
          reversalsTargeting s tid oid ++
            (if ev.tenantId == tid && ev.reversesEventId == some oid then [ev] else []) := by
        unfold reversalsTargeting
        rw [heq, List.filter_append]
        cases hp : (ev.tenantId == tid && ev.reversesEventId == some oid) <;> simp [hp]
      rw [hsplit]
      cases hp : (ev.tenantId == tid && ev.reversesEventId == some oid)
      · simp only [Bool.false_eq_true, if_false, List.append_nil]
        exact hc
      · have hpt : ev.tenantId = tid ∧ ev.reversesEventId = some oid := by
          simpa [Bool.and_eq_true, beq_iff_eq] using hp
        rcases hcase with hnone | ⟨oid2, orig, hsomeq, horig, haccq, hnot⟩
        · rw [hpt.2] at hnone
          cases hnone
        · have hoid : oid2 = oid := by
            rw [hpt.2] at hsomeq
            exact (Option.some.inj hsomeq).symm
          rw [hoid] at hsomeq horig hnot
          have hempty : reversalsTargeting s tid oid = [] := by
            by_contra hneq
            obtain ⟨x, hx⟩ := List.exists_mem_of_ne_nil _ hneq
            have hx' := List.mem_filter.mp hx
            have hxt : x.tenantId = tid ∧ x.reversesEventId = some oid := by
              simpa [Bool.and_eq_true, beq_iff_eq] using hx'.2
            obtain ⟨orig2, ho2, ha2⟩ := hr x hx'.1 hxt.1 hxt.2
            have horig' : getEventById s tid oid = some orig := by
              rw [← hpt.1]
              exact horig
            have horigeq : orig2 = orig := by
              rw [horig'] at ho2
              exact (Option.some.inj ho2).symm
            have hxm : x ∈ getEventsByAccountId s ev.tenantId orig.accountId := by
              unfold getEventsByAccountId
              refine List.mem_filter.mpr ⟨hx'.1, ?_⟩
              have h1 : x.tenantId = ev.tenantId := by rw [hxt.1, hpt.1]
              have h2 : x.accountId = orig.accountId := by rw [ha2, horigeq]
              simp [h1, h2]
            exact hnot x hxm hxt.2
          rw [hempty]
          simp
    · intro e he h3 h4
      rw [heq] at he
      rcases List.mem_append.mp he with hold | hnew
      · obtain ⟨orig, ho, ha⟩ := hr e hold h3 h4
        exact ⟨orig, hstable _ _ ho, ha⟩
      · have he' : e = ev := by simpa using hnew
        subst he'
        rcases hcase with hnone | ⟨oid2, orig, hsomeq, horig, haccq, hnot⟩
        · rw [h4] at hnone
          cases hnone
        · have hoid : oid2 = oid := by
            rw [h4] at hsomeq
            exact (Option.some.inj hsomeq).symm
          rw [hoid] at horig
          refine ⟨orig, ?_, haccq⟩
          refine hstable oid orig ?_
          rw [← h3]
          exact horig

theorem RevInv_runOps (ops : List Op) (s : St) (h : RevInv s) : RevInv (runOps ops s) := by
  induction ops generalizing s with
  | nil => exact h
  | cons op rest ih => exact ih (applyOp op s) (RevInv_preserved op s h)

/-- C5: with a fresh idempotency key, `reverseEvent` fails with
`EVENT_NOT_FOUND` when the original event id does not resolve within the
tenant and with `ALREADY_REVERSED` when some event of the original's account
already carries `reversesEventId` equal to the original id; consequently,
under any sequence of engine calls from the empty state, at most one stored
reversal ever targets a given original event id. -/
theorem claim5_at_most_one_reversal (s : St) (tid : String) (p : ReverseEventParams)
    (hfresh : getEventByIdempotencyKey s tid p.idempotencyKey = none) :
    (getEventById s tid p.originalEventId = none →
      reverseEvent tid p s = Except.error LErr.eventNotFound) ∧
    (∀ orig, getEventById s tid p.originalEventId = some orig →
      (∃ x ∈ getEventsByAccountId s tid orig.accountId,
        x.reversesEventId = some p.originalEventId) →
      reverseEvent tid p s = Except.error LErr.alreadyReversed) ∧
    (∀ (ops : List Op) (tid2 oid : String),
      (reversalsTargeting (runOps ops st0) tid2 oid).length ≤ 1) := by
  refine ⟨?_, ?_, ?_⟩
  · intro horig
    simp [reverseEvent, hfresh, horig]
  · intro orig horig hex
    obtain ⟨x, hx, hxr⟩ := hex
    have hany : ((getEventsByAccountId s tid orig.accountId).any
        (fun e => e.reversesEventId == some p.originalEventId)) = true :=
      List.any_eq_true.mpr ⟨x, hx, by simp [hxr]⟩
    simp [reverseEvent, hfresh, horig, hany]
  · intro ops tid2 oid
    exact (RevInv_runOps ops st0 RevInv_st0 tid2 oid).1

/-- Original event of the C5 witness. -/
def c5Orig : LedgerEvent :=
  { id := "ev-1"
    tenantId := "t5"
    accountId := "acct-5"
    eventType := "CREDIT"
    amount := "8"
    currency := "USD"
    idempotencyKey := "k1"
    reversesEventId := none
    description := none
    metadata := none
    sequenceNumber := 1
    createdAt := 0 }

/-- Stored reversal of the C5 witness, already targeting `ev-1`. -/
def c5Rev : LedgerEvent :=
  { c5Orig with
    id := "rev-1"
    eventType := "REVERSAL"
    amount := "-8"
    idempotencyKey := "k2"
    reversesEventId := some "ev-1"
    sequenceNumber := 2 }

/-- State of the C5 witness: the original and one stored reversal. -/
def c5State : St := { st0 with events := [c5Orig, c5Rev] }

/-- Second reversal attempt of the C5 witness, under a fresh key. -/
def c5P : ReverseEventParams :=
  { originalEventId := "ev-1"
    reversalEventId := some "rev-2"
    idempotencyKey := "k3"
    description := none }

theorem claim5_witness :
    reverseEvent "t5" { c5P with originalEventId := "missing" } c5State =
      Except.error LErr.eventNotFound ∧
    reverseEvent "t5" c5P c5State = Except.error LErr.alreadyReversed :=
  ⟨(claim5_at_most_one_reversal c5State "t5" { c5P with originalEventId := "missing" }
      (by decide)).1 (by decide),
   (claim5_at_most_one_reversal c5State "t5" c5P (by decide)).2.1 c5Orig (by decide)
     ⟨c5Rev, by decide, by decide⟩⟩

/-! ### Claim C3 -/

/-- Shape of the exact-rational idealization `getAccountBalance`: error when
the account is missing, otherwise the exact sum of the account's event
amounts rendered by `ratToFixed8`.  The program itself sums binary64
doubles; this lemma supplies the idealized side of the C3 counterexample. -/
theorem getAccountBalance_rat_sum (s : St) (tid aid : String) :
    (getAccount s tid aid = none →
      getAccountBalance tid aid s = Except.error LErr.accountNotFound) ∧
    (∀ account, getAccount s tid aid = some account →
      getAccountBalance tid aid s = Except.ok
        { accountId := aid
          balance := ratToFixed8
            (((getEventsByAccountId s tid aid).map (fun e => parseAmount e.amount)).sum)
          currency := account.currency
          eventCount := (getEventsByAccountId s tid aid).length }) := by
  constructor
  · intro hacct
    simp [getAccountBalance, hacct]
  · intro account hacct
    have hsum : ((getEventsByAccountId s tid aid).map (fun e => parseAmount e.amount)).sum =
        (getEventsByAccountId s tid aid).foldl (fun b e => b + parseAmount e.amount) 0 := by
      rw [List.sum_eq_foldl, List.foldl_map]
    simp only [getAccountBalance, hacct, hsum]

/-- Account of the C3 witness. -/
def c3Account : LedgerAccount :=
  { id := "acct-3"
    tenantId := "t3"
    accountType := "CASH"
    currency := "USD"
    metadata := none
    createdAt := 0 }

/-- Events of the C3 witness: a credit, a debit and a reversal. -/
def c3Events : List LedgerEvent :=
  [{ id := "e1", tenantId := "t3", accountId := "acct-3", eventType := "CREDIT",
     amount := "100.00", currency := "USD", idempotencyKey := "k1",
     reversesEventId := none, description := none, metadata := none,
     sequenceNumber := 1, createdAt := 0 },
   { id := "e2", tenantId := "t3", accountId := "acct-3", eventType := "DEBIT",
     amount := "-30.00", currency := "USD", idempotencyKey := "k2",
     reversesEventId := none, description := none, metadata := none,
     sequenceNumber := 2, createdAt := 1 },
   { id := "r1", tenantId := "t3", accountId := "acct-3", eventType := "REVERSAL",
     amount := "-100", currency := "USD", idempotencyKey := "k3",
     reversesEventId := some "e1", description := none, metadata := none,
     sequenceNumber := 3, createdAt := 2 }]

/-- State of the C3 witness. -/
def c3State : St :=
  { st0 with
    accounts := [(accountKey "t3" "acct-3", c3Account)]
    events := c3Events }

/-! ### Claim C8 -/

theorem mem_gapErrorsOf {events : List LedgerEvent} {i : ℕ} {e : LedgerEvent}
    (hie : events[i]? = some e) (hne : e.sequenceNumber ≠ i + 1) :
    gapMsg (i + 1) e.sequenceNumber ∈ gapErrorsOf events := by
  refine List.mem_filterMap.mpr ⟨(i, e), ?_, ?_⟩
  · rw [List.mem_enum_iff_getElem?]
    exact hie
  · simp [hne]

/-- C8: on an existing account, `verifyLedgerIntegrity` accumulates all
violations rather than stopping at the first: after sorting the account's
events by sequence number, every 0-based position `i` whose event's sequence
number differs from `i + 1` contributes an individually reported error;
`valid` is true exactly when the error list is empty (so a valid report
certifies that every position carries the expected sequence number); and the
operation alters no stored state. -/
theorem claim8_integrity_reports_all_gaps (s : St) (tid aid : String)
    (account : LedgerAccount) (hacct : getAccount s tid aid = some account) :
    ∃ report, verifyLedgerIntegrity tid aid s = Except.ok report ∧
      (∀ (i : ℕ) (e : LedgerEvent),
        (sortBySeq (getEventsByAccountId s tid aid))[i]? = some e →
        e.sequenceNumber ≠ i + 1 →
        gapMsg (i + 1) e.sequenceNumber ∈ report.errors) ∧
      (report.valid = true ↔ report.errors = []) ∧
      (report.valid = true → ∀ (i : ℕ) (e : LedgerEvent),
        (sortBySeq (getEventsByAccountId s tid aid))[i]? = some e →
        e.sequenceNumber = i + 1) ∧
      applyOp (Op.verify tid aid) s = s := by
  rcases hbal : getAccountBalance tid aid s with err | bal
  · exfalso
    simp [getAccountBalance, hacct] at hbal
  · have hver : verifyLedgerIntegrity tid aid s =
        Except.ok (integrityReportOf tid aid s bal) := by
      simp only [verifyLedgerIntegrity, hacct, hbal]
    have herr : (integrityReportOf tid aid s bal).errors =
        gapErrorsOf (sortBySeq (getEventsByAccountId s tid aid)) ++
          tenantErrorsOf tid (sortBySeq (getEventsByAccountId s tid aid)) ++
          (if |(sortBySeq (getEventsByAccountId s tid aid)).foldl
                (fun b e => b + parseAmount e.amount) 0 - parseAmount bal.balance| >
              1 / 10 ^ 8 then
            [balanceMsg (parseAmount bal.balance)
              ((sortBySeq (getEventsByAccountId s tid aid)).foldl
                (fun b e => b + parseAmount e.amount) 0)]
          else []) := by
      rfl
    refine ⟨integrityReportOf tid aid s bal, hver, ?_, ?_, ?_, ?_⟩
    · intro i e hie hne
      rw [herr]
      exact List.mem_append_left _ (List.mem_append_left _ (mem_gapErrorsOf hie hne))
    · exact List.isEmpty_iff
    · intro hv i e hie
      by_contra hne
      have hmem : gapMsg (i + 1) e.sequenceNumber ∈ (integrityReportOf tid aid s bal).errors := by
        rw [herr]
        exact List.mem_append_left _ (List.mem_append_left _ (mem_gapErrorsOf hie hne))
      have hnil : (integrityReportOf tid aid s bal).errors = [] := List.isEmpty_iff.mp hv
      rw [hnil] at hmem
      simp at hmem
    · simp [applyOp, execOp, hver, Except.map]

/-! ### Claim C7 -/

theorem insertBySeq_perm (e : LedgerEvent) (l : List LedgerEvent) :
    List.Perm (insertBySeq e l) (e :: l) := by
  induction l with
  | nil => exact List.Perm.refl _
  | cons x xs ih =>
    unfold insertBySeq
    by_cases h : x.sequenceNumber < e.sequenceNumber
    · rw [if_pos h]
      exact List.Perm.trans (List.Perm.cons x ih) (List.Perm.swap e x xs)
    · rw [if_neg h]

theorem sortBySeq_perm (l : List LedgerEvent) : List.Perm (sortBySeq l) l := by
  induction l with
  | nil => exact List.Perm.refl _
  | cons x xs ih =>
    unfold sortBySeq
    simp only [List.foldr_cons]
    exact List.Perm.trans (insertBySeq_perm x _) (List.Perm.cons x ih)

theorem mem_insertBySeq {e x : LedgerEvent} {l : List LedgerEvent}
    (h : x ∈ insertBySeq e l) : x = e ∨ x ∈ l := by
  have := (insertBySeq_perm e l).mem_iff.mp h
  simpa using this

theorem insertBySeq_sorted {e : LedgerEvent} {l : List LedgerEvent}
    (h : l.Pairwise (fun a b => a.sequenceNumber ≤ b.sequenceNumber)) :
    (insertBySeq e l).Pairwise (fun a b => a.sequenceNumber ≤ b.sequenceNumber) := by
  induction l with
  | nil => simp [insertBySeq]
  | cons x xs ih =>
    rw [List.pairwise_cons] at h
    obtain ⟨hx, hxs⟩ := h
    unfold insertBySeq
    by_cases hlt : x.sequenceNumber < e.sequenceNumber
    · rw [if_pos hlt]
      rw [List.pairwise_cons]
      refine ⟨?_, ih hxs⟩
      intro y hy
      rcases mem_insertBySeq hy with rfl | hy2
      · exact le_of_lt hlt
      · exact hx y hy2
    · rw [if_neg hlt]
      rw [List.pairwise_cons]
      refine ⟨?_, List.pairwise_cons.mpr ⟨hx, hxs⟩⟩
      intro y hy
      rcases List.mem_cons.mp hy with rfl | hy2
      · exact le_of_not_lt hlt
      · exact le_trans (le_of_not_lt hlt) (hx y hy2)

theorem sortBySeq_sorted (l : List LedgerEvent) :
    (sortBySeq l).Pairwise (fun a b => a.sequenceNumber ≤ b.sequenceNumber) := by
  induction l with
  | nil => simp [sortBySeq]
  | cons x xs ih =>
    unfold sortBySeq
    simp only [List.foldr_cons]
    exact insertBySeq_sorted ih

theorem stmtEntriesAux_length (l : List LedgerEvent) :
    ∀ acc : ℚ, (stmtEntriesAux acc l).length = l.length := by
  induction l with
  | nil => intro acc; rfl
  | cons x xs ih =>
    intro acc
    simp only [stmtEntriesAux, List.length_cons, ih]

theorem stmtEntriesAux_getElem (l : List LedgerEvent) :
    ∀ (acc : ℚ) (i : ℕ) (e : LedgerEvent), l[i]? = some e →
      (stmtEntriesAux acc l)[i]? = some
        { eventId := e.id
          eventType := e.eventType
          amount := e.amount
          runningBalance :=
            ratToFixed8 (acc + ((l.take (i + 1)).map (fun x => parseAmount x.amount)).sum)
          description := e.description
          createdAt := e.createdAt } := by
  induction l with
  | nil => intro acc i e h; simp at h
  | cons x xs ih =>
    intro acc i e h
    cases i with
    | zero =>
      rw [List.getElem?_cons_zero] at h
      have hx : x = e := Option.some.inj h
      subst hx
      simp only [stmtEntriesAux, List.getElem?_cons_zero, Option.some.injEq,
        List.take_succ_cons, List.take_zero, List.map_cons, List.map_nil, List.sum_cons,
        List.sum_nil, StatementEntry.mk.injEq, true_and, and_true]
      all_goals (congr 1; ring)
    | succ j =>
      rw [List.getElem?_cons_succ] at h
      have hrec := ih (acc + parseAmount x.amount) j e h
      simp only [stmtEntriesAux, List.getElem?_cons_succ]
      rw [hrec]
      simp only [Option.some.injEq, StatementEntry.mk.injEq, List.take_succ_cons,
        List.map_cons, List.sum_cons, true_and, and_true]
      all_goals (congr 1; ring)

/-- C7: on an existing account the statement is computed from the account's
events sorted strictly by ascending sequence number (a sorted permutation of
the stored events), then filtered to the optional date window; each entry's
running balance renders the exact partial sum of the included amounts up to
it; the opening balance is the first included entry's running balance minus
that entry's amount at eight-decimal rendering, the closing balance renders
the exact sum of all included amounts, and both are `"0.00000000"` when no
entries are included. -/
theorem claim7_statement_sorted_filtered (s : St) (tid aid : String)
    (o : StatementOptions) (account : LedgerAccount)
    (hacct : getAccount s tid aid = some account) :
    ∃ st, getAccountStatement tid aid o s = Except.ok st ∧
      List.Perm (sortBySeq (getEventsByAccountId s tid aid))
        (getEventsByAccountId s tid aid) ∧
      (sortBySeq (getEventsByAccountId s tid aid)).Pairwise
        (fun a b => a.sequenceNumber ≤ b.sequenceNumber) ∧
      st.entries.length = (statementEvents o (getEventsByAccountId s tid aid)).length ∧
      (∀ (i : ℕ) (e : LedgerEvent),
        (statementEvents o (getEventsByAccountId s tid aid))[i]? = some e →
        st.entries[i]? = some
          { eventId := e.id
            eventType := e.eventType
            amount := e.amount
            runningBalance := ratToFixed8
              ((((statementEvents o (getEventsByAccountId s tid aid)).take (i + 1)).map
                (fun x => parseAmount x.amount)).sum)
            description := e.description
            createdAt := e.createdAt }) ∧
      (st.entries = [] →
        st.openingBalance = "0.00000000" ∧ st.closingBalance = "0.00000000") ∧
      (∀ e0 rest, st.entries = e0 :: rest →
        st.openingBalance =
          ratToFixed8 (parseAmount e0.runningBalance - parseAmount e0.amount)) ∧
      (st.entries ≠ [] →
        st.closingBalance = ratToFixed8
          (((statementEvents o (getEventsByAccountId s tid aid)).map
            (fun x => parseAmount x.amount)).sum)) := by
  have hst : getAccountStatement tid aid o s = Except.ok
      (accountStatementOf aid account o (getEventsByAccountId s tid aid)) := by
    simp only [getAccountStatement, hacct]
  have hentries : (accountStatementOf aid account o (getEventsByAccountId s tid aid)).entries =
      stmtEntriesAux 0 (statementEvents o (getEventsByAccountId s tid aid)) := rfl
  refine ⟨_, hst, sortBySeq_perm _, sortBySeq_sorted _, ?_, ?_, ?_, ?_, ?_⟩
  · rw [hentries, stmtEntriesAux_length]
  · intro i e hie
    rw [hentries]
    have := stmtEntriesAux_getElem _ 0 i e hie
    rw [this]
    simp only [Option.some.injEq, StatementEntry.mk.injEq, true_and, and_true]
    all_goals (congr 1; ring)
  · intro hnil
    rw [hentries] at hnil
    constructor
    · show statementOpening (stmtEntriesAux 0 _) = _
      rw [hnil]
      rfl
    · show statementClosing (stmtEntriesAux 0 _) = _
      rw [hnil]
      rfl
  · intro e0 rest hcons
    rw [hentries] at hcons
    show statementOpening (stmtEntriesAux 0 _) = _
    rw [hcons]
    rfl
  · intro hne
    rw [hentries] at hne
    show statementClosing (stmtEntriesAux 0 _) = _
    have hlen0 : (statementEvents o (getEventsByAccountId s tid aid)) ≠ [] := by
      intro h0
      rw [h0] at hne
      exact hne rfl
    set evs := statementEvents o (getEventsByAccountId s tid aid) with hevs
    have hlenpos : 0 < evs.length := List.length_pos.mpr hlen0
    have hidx : evs[evs.length - 1]? = some (evs.getLast hlen0) := by
      rw [← List.getLast?_eq_getElem?]
      exact List.getLast?_eq_getLast evs hlen0
    have hlast := stmtEntriesAux_getElem evs 0 (evs.length - 1) (evs.getLast hlen0) hidx
    unfold statementClosing
    have hlen : (stmtEntriesAux 0 evs).length = evs.length := stmtEntriesAux_length evs 0
    rw [List.getLast?_eq_getElem?, hlen, hlast]
    have htake : evs.take (evs.length - 1 + 1) = evs := by
      have : evs.length - 1 + 1 = evs.length := by omega
      rw [this]
      exact List.take_length evs
    rw [htake]
    simp

/-- Account of the C7 witness. -/
def c7Account : LedgerAccount :=
  { id := "acct-7"
    tenantId := "t7"
    accountType := "CASH"
    currency := "USD"
    metadata := none
    createdAt := 0 }

/-- State of the C7 witness: two events stored out of sequence order. -/
def c7State : St :=
  { st0 with
    accounts := [(accountKey "t7" "acct-7", c7Account)]
    events :=
      [{ id := "e2", tenantId := "t7", accountId := "acct-7", eventType := "DEBIT",
         amount := "-30.00", currency := "USD", idempotencyKey := "k2",
         reversesEventId := none, description := none, metadata := none,
         sequenceNumber := 2, createdAt := 5 },
       { id := "e1", tenantId := "t7", accountId := "acct-7", eventType := "CREDIT",
         amount := "100.00", currency := "USD", idempotencyKey := "k1",
         reversesEventId := none, description := none, metadata := none,
         sequenceNumber := 1, createdAt := 3 }] }

/-- Date window of the C7 witness. -/
def c7Opts : StatementOptions := { fromDate := some 1, toDate := some 9 }

theorem claim7_witness :
    ∃ st, getAccountStatement "t7" "acct-7" c7Opts c7State = Except.ok st ∧
      List.Perm (sortBySeq (getEventsByAccountId c7State "t7" "acct-7"))
        (getEventsByAccountId c7State "t7" "acct-7") ∧
      (sortBySeq (getEventsByAccountId c7State "t7" "acct-7")).Pairwise
        (fun a b => a.sequenceNumber ≤ b.sequenceNumber) ∧
      st.entries.length =
        (statementEvents c7Opts (getEventsByAccountId c7State "t7" "acct-7")).length ∧
      (∀ (i : ℕ) (e : LedgerEvent),
        (statementEvents c7Opts (getEventsByAccountId c7State "t7" "acct-7"))[i]? = some e →
        st.entries[i]? = some
          { eventId := e.id
            eventType := e.eventType
            amount := e.amount
            runningBalance := ratToFixed8
              ((((statementEvents c7Opts (getEventsByAccountId c7State "t7" "acct-7")).take
                (i + 1)).map (fun x => parseAmount x.amount)).sum)
            description := e.description
            createdAt := e.createdAt }) ∧
      (st.entries = [] →
        st.openingBalance = "0.00000000" ∧ st.closingBalance = "0.00000000") ∧
      (∀ e0 rest, st.entries = e0 :: rest →
        st.openingBalance =
          ratToFixed8 (parseAmount e0.runningBalance - parseAmount e0.amount)) ∧
      (st.entries ≠ [] →
        st.closingBalance = ratToFixed8
          (((statementEvents c7Opts (getEventsByAccountId c7State "t7" "acct-7")).map
            (fun x => parseAmount x.amount)).sum)) :=
  claim7_statement_sorted_filtered c7State "t7" "acct-7" c7Opts c7Account rfl

/-- Account of the C8 witness. -/
def c8Account : LedgerAccount :=
  { id := "acct-8"
    tenantId := "t8"
    accountType := "CASH"
    currency := "USD"
    metadata := none
    createdAt := 0 }

/-- State of the C8 witness: a manually introduced sequence gap (numbers `1`
and `3`). -/
def c8State : St :=
  { st0 with
    accounts := [(accountKey "t8" "acct-8", c8Account)]
    events :=
      [{ id := "e1", tenantId := "t8", accountId := "acct-8", eventType := "CREDIT",
         amount := "10", currency := "USD", idempotencyKey := "k1",
         reversesEventId := none, description := none, metadata := none,
         sequenceNumber := 1, createdAt := 0 },
       { id := "e3", tenantId := "t8", accountId := "acct-8", eventType := "CREDIT",
         amount := "5", currency := "USD", idempotencyKey := "k3",
         reversesEventId := none, description := none, metadata := none,
         sequenceNumber := 3, createdAt := 1 }] }

theorem claim8_witness :
    ∃ report, verifyLedgerIntegrity "t8" "acct-8" c8State = Except.ok report ∧
      (∀ (i : ℕ) (e : LedgerEvent),
        (sortBySeq (getEventsByAccountId c8State "t8" "acct-8"))[i]? = some e →
        e.sequenceNumber ≠ i + 1 →
        gapMsg (i + 1) e.sequenceNumber ∈ report.errors) ∧
      (report.valid = true ↔ report.errors = []) ∧
      (report.valid = true → ∀ (i : ℕ) (e : LedgerEvent),
        (sortBySeq (getEventsByAccountId c8State "t8" "acct-8"))[i]? = some e →
        e.sequenceNumber = i + 1) ∧
      applyOp (Op.verify "t8" "acct-8") c8State = c8State :=
  claim8_integrity_reports_all_gaps c8State "t8" "acct-8" c8Account rfl

/-! ### Claim C6 -/

theorem find?_filter_of_imp {α : Type} (p q : α → Bool) (l : List α)
    (h : ∀ x ∈ l, p x = true → q x = true) :
    (l.filter q).find? p = l.find? p := by
  induction l with
  | nil => rfl
  | cons a t ih =>
    have ht : ∀ x ∈ t, p x = true → q x = true := fun x hx => h x (List.mem_cons_of_mem a hx)
    by_cases hq : q a = true
    · rw [List.filter_cons_of_pos hq]
      by_cases hp : p a = true
      · rw [List.find?_cons_of_pos _ hp, List.find?_cons_of_pos _ hp]
      · rw [List.find?_cons_of_neg _ (by simpa using hp), List.find?_cons_of_neg _
          (by simpa using hp), ih ht]
    · have hp : p a = false := by
        cases hpa : p a
        · rfl
        · exact absurd (h a (List.mem_cons_self a t) hpa) hq
      rw [List.filter_cons_of_neg (by simpa using hq), List.find?_cons_of_neg _
        (by simp [hp]), ih ht]

theorem filter_filter_of_imp {α : Type} (p q : α → Bool) (l : List α)
    (h : ∀ x ∈ l, p x = true → q x = true) :
    (l.filter q).filter p = l.filter p := by
  rw [List.filter_filter]
  refine List.filter_congr ?_
  intro x hx
  cases hpx : p x
  · simp [hpx]
  · simp [hpx, h x hx hpx]

theorem any_filter_of_imp {α : Type} (p q : α → Bool) (l : List α)
    (h : ∀ x ∈ l, p x = true → q x = true) :
    (l.filter q).any p = l.any p := by
  cases hl : l.any p
  · rw [List.any_eq_false] at hl ⊢
    intro x hx
    exact hl x (List.mem_of_mem_filter hx)
  · rw [List.any_eq_true] at hl ⊢
    obtain ⟨x, hx, hpx⟩ := hl
    exact ⟨x, List.mem_filter.mpr ⟨hx, h x hx hpx⟩, hpx⟩

theorem append_colon_inj {t1 a1 t2 a2 : List Char}
    (h1 : ':' ∉ t1) (h2 : ':' ∉ t2)
    (h : t1 ++ ':' :: a1 = t2 ++ ':' :: a2) : t1 = t2 ∧ a1 = a2 := by
  induction t1 generalizing t2 with
  | nil =>
    cases t2 with
    | nil => simpa using h
    | cons d u =>
      rw [List.nil_append] at h
      have hd := (List.cons.injEq _ _ _ _).mp h
      exact absurd (hd.1 ▸ List.mem_cons_self d u) h2
  | cons c r ih =>
    cases t2 with
    | nil =>
      rw [List.nil_append] at h
      have hd := (List.cons.injEq _ _ _ _).mp h
      exact absurd (hd.1.symm ▸ List.mem_cons_self c r) h1
    | cons d u =>
      rw [List.cons_append, List.cons_append] at h
      have hd := (List.cons.injEq _ _ _ _).mp h
      have h1' : ':' ∉ r := fun hm => h1 (List.mem_cons_of_mem c hm)
      have h2' : ':' ∉ u := fun hm => h2 (List.mem_cons_of_mem d hm)
      obtain ⟨he, ha⟩ := ih h1' h2' hd.2
      exact ⟨by rw [hd.1, he], ha⟩

theorem accountKey_inj {t1 a1 t2 a2 : String}
    (h1 : ':' ∉ t1.data) (h2 : ':' ∉ t2.data)
    (h : accountKey t1 a1 = accountKey t2 a2) : t1 = t2 ∧ a1 = a2 := by
  have hd : t1.data ++ ':' :: a1.data = t2.data ++ ':' :: a2.data := by
    have hc := congrArg String.data h
    simpa [accountKey, String.data_append] using hc
  obtain ⟨hh, ha⟩ := append_colon_inj h1 h2 hd
  exact ⟨String.ext hh, String.ext ha⟩

/-- Tenant projection of the accounts map: the entries whose stored account
belongs to the tenant. -/
def projAccounts (tid : String) (m : List (String × LedgerAccount)) :
    List (String × LedgerAccount) :=
  m.filter (fun kv => kv.2.tenantId == tid)

/-- Tenant projection of a state: only the given tenant's accounts, events
and audit records (the logical clock and identifier counter are kept). -/
def projSt (tid : String) (s : St) : St :=
  { accounts := projAccounts tid s.accounts
    events := s.events.filter (fun e => e.tenantId == tid)
    audits := s.audits.filter (fun a => a.tenantId == tid)
    clock := s.clock
    nextUuid := s.nextUuid }

/-- Well-formed account map: every entry is keyed by `accountKey` of its
stored tenant and account id, and no stored tenant id contains `':'` (the
separator of `accountKey`). -/
def WfAccounts (s : St) : Prop :=
  ∀ kv ∈ s.accounts, kv.1 = accountKey kv.2.tenantId kv.2.id ∧ ':' ∉ kv.2.tenantId.data

/-- Tenant an engine call is bound to. -/
def opTenant : Op → String
  | Op.openAcct tid _ => tid
  | Op.record tid _ => tid
  | Op.reverse tid _ => tid
  | Op.balance tid _ => tid
  | Op.statement tid _ _ => tid
  | Op.verify tid _ => tid

/-- Result of a call with the successor state dropped. -/
def resultPart {α : Type} (r : Except LErr (α × St)) : Except LErr α :=
  r.map (fun x => x.1)

theorem getEventByIdempotencyKey_proj (A k : String) (s : St) :
    getEventByIdempotencyKey (projSt A s) A k = getEventByIdempotencyKey s A k := by
  unfold getEventByIdempotencyKey
  exact find?_filter_of_imp _ _ _
    (fun x _ hp => ((Bool.and_eq_true _ _).mp hp).1)

theorem getEventById_proj (A k : String) (s : St) :
    getEventById (projSt A s) A k = getEventById s A k := by
  unfold getEventById
  exact find?_filter_of_imp _ _ _
    (fun x _ hp => ((Bool.and_eq_true _ _).mp hp).1)

theorem getEventsByAccountId_proj (A aid : String) (s : St) :
    getEventsByAccountId (projSt A s) A aid = getEventsByAccountId s A aid := by
  unfold getEventsByAccountId
  exact filter_filter_of_imp _ _ _
    (fun x _ hp => ((Bool.and_eq_true _ _).mp hp).1)

theorem getNextSequenceNumber_proj (A aid : String) (s : St) :
    getNextSequenceNumber (projSt A s) A aid = getNextSequenceNumber s A aid := by
  unfold getNextSequenceNumber
  rw [getEventsByAccountId_proj]

theorem getAccount_proj {A : String} {s : St} (hwf : WfAccounts s)
    (hA : ':' ∉ A.data) (aid : String) :
    getAccount (projSt A s) A aid = getAccount s A aid := by
  unfold getAccount mapGet
  refine congrArg _ (find?_filter_of_imp _ _ _ ?_)
  intro kv hkv hp
  have hk : kv.1 = accountKey A aid := by simpa using hp
  obtain ⟨hkey, hcf⟩ := hwf kv hkv
  have hinj := accountKey_inj hcf hA (hkey.symm.trans hk)
  simp [hinj.1]

/-- Identifier the engine uses for a recorded event. -/
def recEventId (p : RecordEventParams) (s : St) : String :=
  match jsOrNone p.eventId with
  | some i => i
  | none => (freshUuid s).1

/-- Identifier of the audit record a successful `recordEvent` emits. -/
def recAuditId (p : RecordEventParams) (s : St) : String :=
  match jsOrNone p.eventId with
  | some _ => (freshUuid s).1
  | none => "uuid-" ++ natToStr (s.nextUuid + 1)

/-- Identifier counter after a successful `recordEvent`. -/
def recNextUuid (p : RecordEventParams) (s : St) : ℕ :=
  match jsOrNone p.eventId with
  | some _ => s.nextUuid + 1
  | none => s.nextUuid + 2

/-- Closed form of a successful `recordEvent`. -/
theorem recordEvent_eq_success (s : St) (tid : String) (p : RecordEventParams)
    (account : LedgerAccount)
    (hfresh : getEventByIdempotencyKey s tid p.idempotencyKey = none)
    (hacct : getAccount s tid p.accountId = some account)
    (hcur : account.currency = p.currency) :
    recordEvent tid p s = Except.ok
      (recNewEvent tid p (recEventId p s) s,
       recNewState tid p (recEventId p s) (recAuditId p s) (recNextUuid p s) s) := by
  have hany : (s.events.any
      (fun x => x.tenantId == tid && x.idempotencyKey == p.idempotencyKey)) = false :=
    List.any_eq_false.mpr (List.find?_eq_none.mp hfresh)
  rcases hgen : jsOrNone p.eventId with _ | i <;>
    simp only [recEventId, recAuditId, recNextUuid, hgen] <;>
    simp only [recordEvent, hfresh, hacct, if_neg (not_not_intro hcur), hgen, createEvent,
      emitAuditEvent, freshUuid, hany, Bool.false_eq_true, if_false] <;>
    rfl

/-- Identifier the engine uses for a reversal event. -/
def revEventId (p : ReverseEventParams) (s : St) : String :=
  match jsOrNone p.reversalEventId with
  | some i => i
  | none => (freshUuid s).1

/-- Identifier of the audit record a successful `reverseEvent` emits. -/
def revAuditId (p : ReverseEventParams) (s : St) : String :=
  match jsOrNone p.reversalEventId with
  | some _ => (freshUuid s).1
  | none => "uuid-" ++ natToStr (s.nextUuid + 1)

/-- Identifier counter after a successful `reverseEvent`. -/
def revNextUuid (p : ReverseEventParams) (s : St) : ℕ :=
  match jsOrNone p.reversalEventId with
  | some _ => s.nextUuid + 1
  | none => s.nextUuid + 2

/-- Closed form of a successful `reverseEvent`. -/
theorem reverseEvent_eq_success (s : St) (tid : String) (p : ReverseEventParams)
    (orig : LedgerEvent)
    (hfresh : getEventByIdempotencyKey s tid p.idempotencyKey = none)
    (horig : getEventById s tid p.originalEventId = some orig)
    (hnorev : ((getEventsByAccountId s tid orig.accountId).any
      (fun e => e.reversesEventId == some p.originalEventId)) = false) :
    reverseEvent tid p s = Except.ok
      (revNewEvent tid p orig (revEventId p s) s,
       revNewState tid p orig (revEventId p s) (revAuditId p s) (revNextUuid p s) s) := by
  have hany : (s.events.any
      (fun x => x.tenantId == tid && x.idempotencyKey == p.idempotencyKey)) = false :=
    List.any_eq_false.mpr (List.find?_eq_none.mp hfresh)
  rcases hgen : jsOrNone p.reversalEventId with _ | i <;>
    simp only [revEventId, revAuditId, revNextUuid, hgen] <;>
    simp only [reverseEvent, hfresh, horig, hnorev, Bool.false_eq_true, if_false, hgen,
      createEvent, emitAuditEvent, freshUuid, hany] <;>
    rfl

theorem getAccountBalance_proj {A : String} {s : St} (hwf : WfAccounts s)
    (hA : ':' ∉ A.data) (aid : String) :
    getAccountBalance A aid (projSt A s) = getAccountBalance A aid s := by
  unfold getAccountBalance
  rw [getAccount_proj hwf hA, getEventsByAccountId_proj]

theorem getAccountStatement_proj {A : String} {s : St} (hwf : WfAccounts s)
    (hA : ':' ∉ A.data) (aid : String) (o : StatementOptions) :
    getAccountStatement A aid o (projSt A s) = getAccountStatement A aid o s := by
  unfold getAccountStatement
  rw [getAccount_proj hwf hA, getEventsByAccountId_proj]

theorem integrityReportOf_proj (A aid : String) (s : St) :
    integrityReportOf A aid (projSt A s) = integrityReportOf A aid s := by
  funext bal
  unfold integrityReportOf
  rw [getEventsByAccountId_proj]

theorem verifyLedgerIntegrity_proj {A : String} {s : St} (hwf : WfAccounts s)
    (hA : ':' ∉ A.data) (aid : String) :
    verifyLedgerIntegrity A aid (projSt A s) = verifyLedgerIntegrity A aid s := by
  unfold verifyLedgerIntegrity
  rw [getAccount_proj hwf hA, getAccountBalance_proj hwf hA, integrityReportOf_proj]

theorem resultPart_map_fst {α β : Type} (f : α → β) (r : Except LErr (α × St)) :
    resultPart (r.map (fun rs => (f rs.1, rs.2))) = (resultPart r).map f := by
  cases r <;> rfl

theorem resultPart_map_const {α β : Type} (f : α → β) (r : Except LErr α) (s : St) :
    resultPart (r.map (fun x => (f x, s))) = r.map f := by
  cases r <;> rfl

theorem recordEvent_proj {A : String} {s : St} (hwf : WfAccounts s)
    (hA : ':' ∉ A.data) (p : RecordEventParams) :
    resultPart (recordEvent A p (projSt A s)) = resultPart (recordEvent A p s) := by
  rcases hk : getEventByIdempotencyKey s A p.idempotencyKey with _ | e
  · have hk' : getEventByIdempotencyKey (projSt A s) A p.idempotencyKey = none := by
      rw [getEventByIdempotencyKey_proj, hk]
    rcases hacct : getAccount s A p.accountId with _ | account
    · have hacct' : getAccount (projSt A s) A p.accountId = none := by
        rw [getAccount_proj hwf hA, hacct]
      simp [recordEvent, hk, hk', hacct, hacct', resultPart]
    · have hacct' : getAccount (projSt A s) A p.accountId = some account := by
        rw [getAccount_proj hwf hA, hacct]
      by_cases hcur : account.currency = p.currency
      · rw [recordEvent_eq_success (projSt A s) A p account hk' hacct' hcur,
          recordEvent_eq_success s A p account hk hacct hcur]
        simp only [resultPart, Except.map]
        unfold recNewEvent
        rw [getNextSequenceNumber_proj]
        rfl
      · simp [recordEvent, hk, hk', hacct, hacct', hcur, resultPart]
  · have hk' : getEventByIdempotencyKey (projSt A s) A p.idempotencyKey = some e := by
      rw [getEventByIdempotencyKey_proj, hk]
    simp [recordEvent, hk, hk', resultPart]
    rfl

theorem reverseEvent_proj {A : String} {s : St} (hwf : WfAccounts s)
    (hA : ':' ∉ A.data) (p : ReverseEventParams) :
    resultPart (reverseEvent A p (projSt A s)) = resultPart (reverseEvent A p s) := by
  rcases hk : getEventByIdempotencyKey s A p.idempotencyKey with _ | e
  · have hk' : getEventByIdempotencyKey (projSt A s) A p.idempotencyKey = none := by
      rw [getEventByIdempotencyKey_proj, hk]
    rcases horig : getEventById s A p.originalEventId with _ | orig
    · have horig' : getEventById (projSt A s) A p.originalEventId = none := by
        rw [getEventById_proj, horig]
      simp [reverseEvent, hk, hk', horig, horig', resultPart]
    · have horig' : getEventById (projSt A s) A p.originalEventId = some orig := by
        rw [getEventById_proj, horig]
      by_cases hrev : ((getEventsByAccountId s A orig.accountId).any
          (fun e => e.reversesEventId == some p.originalEventId)) = true
      · have hrev' : ((getEventsByAccountId (projSt A s) A orig.accountId).any
            (fun e => e.reversesEventId == some p.originalEventId)) = true := by
          rw [getEventsByAccountId_proj]
          exact hrev
        simp [reverseEvent, hk, hk', horig, horig', hrev, hrev', resultPart]
      · have hrevF : ((getEventsByAccountId s A orig.accountId).any
            (fun e => e.reversesEventId == some p.originalEventId)) = false :=
          Bool.eq_false_iff.mpr hrev
        have hrevF' : ((getEventsByAccountId (projSt A s) A orig.accountId).any
            (fun e => e.reversesEventId == some p.originalEventId)) = false := by
          rw [getEventsByAccountId_proj]
          exact hrevF
        rw [reverseEvent_eq_success (projSt A s) A p orig hk' horig' hrevF',
          reverseEvent_eq_success s A p orig hk horig hrevF]
        simp only [resultPart, Except.map]
        unfold revNewEvent
        rw [getNextSequenceNumber_proj]
        rfl
  · have hk' : getEventByIdempotencyKey (projSt A s) A p.idempotencyKey = some e := by
      rw [getEventByIdempotencyKey_proj, hk]
    simp [reverseEvent, hk, hk', resultPart]
    rfl

theorem openAccount_proj {A : String} {s : St} (hwf : WfAccounts s)
    (hA : ':' ∉ A.data) (p : OpenAccountParams) :
    resultPart (openAccount A p (projSt A s)) = resultPart (openAccount A p s) := by
  rcases hgen : jsOrNone p.accountId with _ | i
  · rcases hacct : getAccount (freshUuid s).2 A (freshUuid s).1 with _ | a
    · have hacctP : getAccount (freshUuid (projSt A s)).2 A (freshUuid (projSt A s)).1 = none := by
        show getAccount (projSt A s) A ((freshUuid s).1) = none
        rw [getAccount_proj hwf hA]
        exact hacct
      unfold openAccount
      rw [hgen]
      simp only []
      rw [hacct, hacctP]
      rfl
    · have hacctP : getAccount (freshUuid (projSt A s)).2 A (freshUuid (projSt A s)).1 = some a := by
        show getAccount (projSt A s) A ((freshUuid s).1) = some a
        rw [getAccount_proj hwf hA]
        exact hacct
      unfold openAccount
      rw [hgen]
      simp only []
      rw [hacct, hacctP]
  · rcases hacct : getAccount s A i with _ | a
    · have hacctP : getAccount (projSt A s) A i = none := by
        rw [getAccount_proj hwf hA]
        exact hacct
      unfold openAccount
      rw [hgen]
      simp only []
      rw [hacct, hacctP]
      rfl
    · have hacctP : getAccount (projSt A s) A i = some a := by
        rw [getAccount_proj hwf hA]
        exact hacct
      unfold openAccount
      rw [hgen]
      simp only []
      rw [hacct, hacctP]

theorem execOp_proj {A : String} {s : St} (hwf : WfAccounts s) (hA : ':' ∉ A.data)
    (op : Op) (hop : opTenant op = A) :
    resultPart (execOp op (projSt A s)) = resultPart (execOp op s) := by
  cases op with
  | openAcct tid p =>
    simp only [opTenant] at hop
    subst hop
    simp only [execOp]
    rw [resultPart_map_fst, resultPart_map_fst, openAccount_proj hwf hA p]
  | record tid p =>
    simp only [opTenant] at hop
    subst hop
    simp only [execOp]
    rw [resultPart_map_fst, resultPart_map_fst, recordEvent_proj hwf hA p]
  | reverse tid p =>
    simp only [opTenant] at hop
    subst hop
    simp only [execOp]
    rw [resultPart_map_fst, resultPart_map_fst, reverseEvent_proj hwf hA p]
  | balance tid aid =>
    simp only [opTenant] at hop
    subst hop
    simp only [execOp]
    rw [resultPart_map_const, resultPart_map_const, getAccountBalance_proj hwf hA aid]
  | statement tid aid o =>
    simp only [opTenant] at hop
    subst hop
    simp only [execOp]
    rw [resultPart_map_const, resultPart_map_const, getAccountStatement_proj hwf hA aid o]
  | verify tid aid =>
    simp only [opTenant] at hop
    subst hop
    simp only [execOp]
    rw [resultPart_map_const, resultPart_map_const, verifyLedgerIntegrity_proj hwf hA aid]

theorem mapSet_absent (m : List (String × LedgerAccount)) (k : String) (v : LedgerAccount)
    (h : mapGet m k = none) : mapSet m k v = m ++ [(k, v)] := by
  have hf : m.find? (fun kv => kv.1 == k) = none := by
    cases hf : m.find? (fun kv => kv.1 == k) with
    | none => rfl
    | some kv =>
      unfold mapGet at h
      rw [hf] at h
      simp at h
  have hany : (m.any (fun kv => kv.1 == k)) = false := by
    rw [List.any_eq_false]
    intro kv hkv
    exact List.find?_eq_none.mp hf kv hkv
  unfold mapSet
  rw [hany]
  simp

theorem mapGet_append_ne (m : List (String × LedgerAccount)) (k k' : String) (v : LedgerAccount)
    (h : mapGet m k = none) (hne : k' ≠ k) :
    mapGet (m ++ [(k', v)]) k = none := by
  have hf : m.find? (fun kv => kv.1 == k) = none := by
    cases hf : m.find? (fun kv => kv.1 == k) with
    | none => rfl
    | some kv =>
      unfold mapGet at h
      rw [hf] at h
      simp at h
  unfold mapGet
  rw [Option.map_eq_none', List.find?_eq_none]
  intro kv hkv
  rcases List.mem_append.mp hkv with hm | hs
  · exact List.find?_eq_none.mp hf kv hm
  · simp only [List.mem_singleton] at hs
    subst hs
    simp [hne]

theorem openAccount_ok_othView (tid : String) (p : OpenAccountParams) (s : St)
    (r : LedgerAccount) (s1 : St)
    (h : openAccount tid p s = Except.ok (r, s1)) :
    s1.events = s.events ∧
    r.tenantId = tid ∧
    (∃ k, s1.accounts = s.accounts ++ [(k, r)]) ∧
    (∃ aud : AuditEvent, s1.audits = s.audits ++ [aud] ∧ aud.tenantId = tid) := by
  unfold openAccount at h
  rcases hgen : jsOrNone p.accountId with _ | i <;> rw [hgen] at h <;> simp only [] at h
  · rcases hacct : getAccount (freshUuid s).2 tid (freshUuid s).1 with _ | a <;> rw [hacct] at h
    · simp only [Except.ok.injEq, Prod.mk.injEq] at h
      obtain ⟨h1, h2⟩ := h
      subst h2
      subst h1
      have hm : mapGet s.accounts (accountKey tid ((freshUuid s).1)) = none := hacct
      refine ⟨rfl, rfl, ⟨accountKey tid ((freshUuid s).1), ?_⟩, ⟨_, rfl, rfl⟩⟩
      exact mapSet_absent _ _ _ hm
    · simp at h
  · rcases hacct : getAccount s tid i with _ | a <;> rw [hacct] at h
    · simp only [Except.ok.injEq, Prod.mk.injEq] at h
      obtain ⟨h1, h2⟩ := h
      subst h2
      subst h1
      have hm : mapGet s.accounts (accountKey tid i) = none := hacct
      refine ⟨rfl, rfl, ⟨accountKey tid i, ?_⟩, ⟨_, rfl, rfl⟩⟩
      exact mapSet_absent _ _ _ hm
    · simp at h

theorem recordEvent_ok_othView (tid : String) (p : RecordEventParams) (s : St)
    (ev : LedgerEvent) (s1 : St)
    (h : recordEvent tid p s = Except.ok (ev, s1)) :
    s1 = s ∨
    (ev.tenantId = tid ∧ s1.accounts = s.accounts ∧ s1.events = s.events ++ [ev] ∧
     ∃ aud : AuditEvent, s1.audits = s.audits ++ [aud] ∧ aud.tenantId = tid) := by
  rcases hk : getEventByIdempotencyKey s tid p.idempotencyKey with _ | e
  · rcases hacct : getAccount s tid p.accountId with _ | account
    · simp [recordEvent, hk, hacct] at h
    · by_cases hcur : account.currency = p.currency
      · rw [recordEvent_eq_success s tid p account hk hacct hcur] at h
        simp only [Except.ok.injEq, Prod.mk.injEq] at h
        obtain ⟨h1, h2⟩ := h
        subst h1
        subst h2
        right
        exact ⟨rfl, rfl, rfl, ⟨_, rfl, rfl⟩⟩
      · simp [recordEvent, hk, hacct, hcur] at h
  · simp [recordEvent, hk] at h
    exact Or.inl h.2.symm

theorem reverseEvent_ok_othView (tid : String) (p : ReverseEventParams) (s : St)
    (ev : LedgerEvent) (s1 : St)
    (h : reverseEvent tid p s = Except.ok (ev, s1)) :
    s1 = s ∨
    (ev.tenantId = tid ∧ s1.accounts = s.accounts ∧ s1.events = s.events ++ [ev] ∧
     ∃ aud : AuditEvent, s1.audits = s.audits ++ [aud] ∧ aud.tenantId = tid) := by
  rcases hk : getEventByIdempotencyKey s tid p.idempotencyKey with _ | e
  · rcases horig : getEventById s tid p.originalEventId with _ | orig
    · simp [reverseEvent, hk, horig] at h
    · by_cases hrev : ((getEventsByAccountId s tid orig.accountId).any
          (fun e => e.reversesEventId == some p.originalEventId)) = true
      · simp [reverseEvent, hk, horig, hrev] at h
      · have hrevF : ((getEventsByAccountId s tid orig.accountId).any
            (fun e => e.reversesEventId == some p.originalEventId)) = false :=
          Bool.eq_false_iff.mpr hrev
        rw [reverseEvent_eq_success s tid p orig hk horig hrevF] at h
        simp only [Except.ok.injEq, Prod.mk.injEq] at h
        obtain ⟨h1, h2⟩ := h
        subst h1
        subst h2
        right
        exact ⟨rfl, rfl, rfl, ⟨_, rfl, rfl⟩⟩
  · simp [reverseEvent, hk] at h
    exact Or.inl h.2.symm

/-- The records belonging to tenants other than `A`: the part of the state
the isolation property says a call bound to `A` never changes. -/
def othSt (A : String) (s : St) :
    List (String × LedgerAccount) × List LedgerEvent × List AuditEvent :=
  (s.accounts.filter (fun kv => !(kv.2.tenantId == A)),
   s.events.filter (fun e => !(e.tenantId == A)),
   s.audits.filter (fun a => !(a.tenantId == A)))

theorem applyOp_othSt (A : String) (op : Op) (hop : opTenant op = A) (s : St) :
    othSt A (applyOp op s) = othSt A s := by
  cases op with
  | openAcct tid p =>
    simp only [opTenant] at hop
    subst hop
    rcases hres : openAccount tid p s with err | rs
    · simp [applyOp, execOp, hres, Except.map]
    · have happ : applyOp (Op.openAcct tid p) s = rs.2 := by
        simp [applyOp, execOp, hres, Except.map]
      obtain ⟨hev, htid, ⟨k, hacc⟩, ⟨aud, haud, hatid⟩⟩ :=
        openAccount_ok_othView tid p s rs.1 rs.2 (by rw [hres])
      rw [happ]
      unfold othSt
      rw [hev, hacc, haud, List.filter_append, List.filter_append]
      simp [htid, hatid]
  | record tid p =>
    simp only [opTenant] at hop
    subst hop
    rcases hres : recordEvent tid p s with err | rs
    · simp [applyOp, execOp, hres, Except.map]
    · have happ : applyOp (Op.record tid p) s = rs.2 := by
        simp [applyOp, execOp, hres, Except.map]
      rw [happ]
      rcases recordEvent_ok_othView tid p s rs.1 rs.2 (by rw [hres]) with hs |
        ⟨htid, hacc, hev, ⟨aud, haud, hatid⟩⟩
      · rw [hs]
      · unfold othSt
        rw [hacc, hev, haud, List.filter_append, List.filter_append]
        simp [htid, hatid]
  | reverse tid p =>
    simp only [opTenant] at hop
    subst hop
    rcases hres : reverseEvent tid p s with err | rs
    · simp [applyOp, execOp, hres, Except.map]
    · have happ : applyOp (Op.reverse tid p) s = rs.2 := by
        simp [applyOp, execOp, hres, Except.map]
      rw [happ]
      rcases reverseEvent_ok_othView tid p s rs.1 rs.2 (by rw [hres]) with hs |
        ⟨htid, hacc, hev, ⟨aud, haud, hatid⟩⟩
      · rw [hs]
      · unfold othSt
        rw [hacc, hev, haud, List.filter_append, List.filter_append]
        simp [htid, hatid]
  | balance tid aid =>
    rcases hres : getAccountBalance tid aid s with err | r <;>
      simp [applyOp, execOp, hres, Except.map]
  | statement tid aid o =>
    rcases hres : getAccountStatement tid aid o s with err | r <;>
      simp [applyOp, execOp, hres, Except.map]
  | verify tid aid =>
    rcases hres : verifyLedgerIntegrity tid aid s with err | r <;>
      simp [applyOp, execOp, hres, Except.map]

/-- Account created by `openAccount` under an explicit (truthy) account id. -/
def openedAcct (tid : String) (p : OpenAccountParams) (aid : String) (s : St) : LedgerAccount :=
  { id := aid
    tenantId := tid
    accountType := p.accountType
    currency := p.currency
    metadata := p.metadata
    createdAt := s.clock }

/-- Audit record emitted by a successful `openAccount`. -/
def openedAudit (tid : String) (p : OpenAccountParams) (aid : String) (s : St) : AuditEvent :=
  { id := "uuid-" ++ natToStr s.nextUuid
    tenantId := tid
    entityType := "account"
    entityId := aid
    action := "ACCOUNT_OPENED"
    actorId := none
    payload := some (encodePayload [("accountType", p.accountType), ("currency", p.currency)])
    createdAt := s.clock + 1 }

/-- Successor state of a successful `openAccount` under an explicit id. -/
def openedState (tid : String) (p : OpenAccountParams) (aid : String) (s : St) : St :=
  { accounts := mapSet s.accounts (accountKey tid aid) (openedAcct tid p aid s)
    events := s.events
    audits := s.audits ++ [openedAudit tid p aid s]
    clock := s.clock + 2
    nextUuid := s.nextUuid + 1 }

/-- Closed form of a successful `openAccount` with an explicit account id. -/
theorem openAccount_eq_explicit (tid : String) (p : OpenAccountParams) (s : St)
    (aid : String) (hid : jsOrNone p.accountId = some aid)
    (hacct : getAccount s tid aid = none) :
    openAccount tid p s = Except.ok (openedAcct tid p aid s, openedState tid p aid s) := by
  simp only [openAccount, hid, hacct]
  rfl

/-- When colon-free tenants `A ≠ B` both ask for the same explicit account
id, `B` can still open its account after `A` has opened one. -/
theorem openAccount_second_tenant (A B aid : String) (p : OpenAccountParams) (s : St)
    (r1 : LedgerAccount) (s1 : St)
    (hne : A ≠ B) (hA : ':' ∉ A.data) (hB : ':' ∉ B.data)
    (hid : jsOrNone p.accountId = some aid)
    (h1 : openAccount A p s = Except.ok (r1, s1))
    (hB0 : getAccount s B aid = none) :
    ∃ r2 s2, openAccount B p s1 = Except.ok (r2, s2) ∧
      r2.tenantId = B ∧ r2.id = aid ∧ r1.tenantId = A ∧ r1.id = aid := by
  rcases hacct : getAccount s A aid with _ | a
  · rw [openAccount_eq_explicit A p s aid hid hacct] at h1
    simp only [Except.ok.injEq, Prod.mk.injEq] at h1
    obtain ⟨hr1, hs1⟩ := h1
    subst hr1
    subst hs1
    have hkey : accountKey A aid ≠ accountKey B aid := by
      intro hcontra
      exact hne (accountKey_inj hA hB hcontra).1
    have hget : getAccount (openedState A p aid s) B aid = none := by
      show mapGet (mapSet s.accounts (accountKey A aid) (openedAcct A p aid s))
        (accountKey B aid) = none
      rw [mapSet_absent _ _ _ (show mapGet s.accounts (accountKey A aid) = none from hacct)]
      exact mapGet_append_ne _ _ _ _
        (show mapGet s.accounts (accountKey B aid) = none from hB0) hkey
    exact ⟨_, _, openAccount_eq_explicit B p (openedState A p aid s) aid hid hget,
      rfl, rfl, rfl, rfl⟩
  · simp [openAccount, hid, hacct] at h1

instance {ε α : Type} [DecidableEq ε] [DecidableEq α] : DecidableEq (Except ε α) := fun a b =>
  match a, b with
  | Except.ok x, Except.ok y =>
    if h : x = y then isTrue (by rw [h]) else isFalse (fun hc => h (by injection hc))
  | Except.ok _, Except.error _ => isFalse (fun hc => Except.noConfusion hc)
  | Except.error _, Except.ok _ => isFalse (fun hc => Except.noConfusion hc)
  | Except.error x, Except.error y =>
    if h : x = y then isTrue (by rw [h]) else isFalse (fun hc => h (by injection hc))

def c6cexP : OpenAccountParams :=
  { accountId := some "a:x"
    accountType := "CASH"
    currency := "USD"
    metadata := none }

def c6cexQ : OpenAccountParams :=
  { accountId := some "x"
    accountType := "CASH"
    currency := "USD"
    metadata := none }

/-- State after tenant `"t"` opens its account `"a:x"` in the empty store. -/
def c6cexS : St := applyOp (Op.openAcct "t" c6cexP) st0

/-- C6, counterexample: the store keys accounts by the raw concatenation
`tenantId ++ ":" ++ accountId`, so when tenant `"t"` holds account `"a:x"`,
every stored account belongs to tenant `"t"`, yet tenant `"t:a"` cannot open
its own account `"x"`: its `openAccount` collides with, and thus observes,
the other tenant's record, and the call behaves differently when the other
tenant's records are removed. -/
theorem claim6_counterexample :
    (∀ kv ∈ c6cexS.accounts, kv.2.tenantId = "t") ∧
    openAccount "t:a" c6cexQ c6cexS = Except.error LErr.accountExists ∧
    resultPart (execOp (Op.openAcct "t:a" c6cexQ) (projSt "t:a" c6cexS)) ≠
      resultPart (execOp (Op.openAcct "t:a" c6cexQ) c6cexS) := by
  decide

/-- C6 (amended: tenant identifiers are assumed not to contain `':'`, since
the in-memory store keys accounts by `tenantId ++ ":" ++ accountId` and a
colon inside a tenant id can alias another tenant's key): two colon-free
tenants may each create an account with the same explicit account id; and
every call bound to tenant `A` returns the same result on the state with all
other tenants' records removed (it reads only tenant `A`'s records) and
leaves every other tenant's accounts, events and audit records unchanged
(it writes only tenant `A`'s records). -/
theorem claim6_tenant_isolation_colon_free :
    (∀ (A B aid : String) (p : OpenAccountParams) (s : St) (r1 : LedgerAccount) (s1 : St),
      A ≠ B → ':' ∉ A.data → ':' ∉ B.data →
      jsOrNone p.accountId = some aid →
      openAccount A p s = Except.ok (r1, s1) →
      getAccount s B aid = none →
      ∃ r2 s2, openAccount B p s1 = Except.ok (r2, s2) ∧
        r2.tenantId = B ∧ r2.id = aid ∧ r1.tenantId = A ∧ r1.id = aid) ∧
    (∀ (A : String) (s : St) (op : Op), WfAccounts s → ':' ∉ A.data → opTenant op = A →
      resultPart (execOp op (projSt A s)) = resultPart (execOp op s) ∧
      othSt A (applyOp op s) = othSt A s) := by
  constructor
  · intro A B aid p s r1 s1 hne hA hB hid h1 hB0
    exact openAccount_second_tenant A B aid p s r1 s1 hne hA hB hid h1 hB0
  · intro A s op hwf hA hop
    exact ⟨execOp_proj hwf hA op hop, applyOp_othSt A op hop s⟩

def c6P : OpenAccountParams :=
  { accountId := some "acct"
    accountType := "CASH"
    currency := "USD"
    metadata := none }

theorem claim6_witness :
    (∃ r2 s2, openAccount "B" c6P (openedState "A" c6P "acct" st0) = Except.ok (r2, s2) ∧
      r2.tenantId = "B" ∧ r2.id = "acct" ∧
      (openedAcct "A" c6P "acct" st0).tenantId = "A" ∧
      (openedAcct "A" c6P "acct" st0).id = "acct") ∧
    (resultPart (execOp (Op.balance "A" "acct") (projSt "A" st0)) =
        resultPart (execOp (Op.balance "A" "acct") st0) ∧
      othSt "A" (applyOp (Op.balance "A" "acct") st0) = othSt "A" st0) :=
  ⟨claim6_tenant_isolation_colon_free.1 "A" "B" "acct" c6P st0 _ _ (by decide) (by decide)
      (by decide) (by decide) (openAccount_eq_explicit "A" c6P st0 "acct" (by decide) rfl) rfl,
   claim6_tenant_isolation_colon_free.2 "A" st0 (Op.balance "A" "acct")
      (fun kv hkv => absurd hkv (List.not_mem_nil kv)) (by decide) rfl⟩

/-! ### Faithful IEEE-754 binary64 arithmetic

A double is a pair `(m, e) : ℤ × ℤ` standing for `m * 2 ^ e` with
`|m| ≤ 2 ^ 53`.  Everything below computes on integers only, so a concrete
run kernel-evaluates.  Binary64 overflow and subnormal underflow are outside
the modelled fragment (the exponent is unbounded); ledger amounts stay far
inside the normal range. -/

/-- Bit length by fuel; the fuel is always instantiated with the number
itself, which bounds the recursion depth. -/
def bitsLE : ℕ → ℕ → ℕ
  | 0, _ => 0
  | fuel + 1, n => if n = 0 then 0 else bitsLE fuel (n / 2) + 1

/-- Bit length: `2 ^ (bitLen n - 1) ≤ n < 2 ^ bitLen n` for `n ≥ 1`. -/
def bitLen (n : ℕ) : ℕ := bitsLE n n

/-- Round `n / d` to the nearest integer, ties to even. -/
def rne (n d : ℕ) : ℕ :=
  let q := n / d
  let r := n % d
  if 2 * r < d then q
  else if d < 2 * r then q + 1
  else if q % 2 = 0 then q else q + 1

/-- Correct rounding of the positive rational `num / den` to binary64: the
exponent `e` is fixed so the value lies in the binade `[2 ^ 52 * 2 ^ e,
2 ^ 53 * 2 ^ e)`, then the significand is rounded to nearest, ties to
even, on that grid. -/
def roundPos (num den : ℕ) : ℕ × ℤ :=
  let e0 : ℤ := (bitLen num : ℤ) - (bitLen den : ℤ) - 53
  let sNum := if 0 ≤ e0 then num else num * 2 ^ (-e0).toNat
  let sDen := if 0 ≤ e0 then den * 2 ^ e0.toNat else den
  let e : ℤ := if 2 ^ 53 * sDen ≤ sNum then e0 + 1 else e0
  let tNum := if 0 ≤ e then num else num * 2 ^ (-e).toNat
  let tDen := if 0 ≤ e then den * 2 ^ e.toNat else den
  (rne tNum tDen, e)

/-- Correct rounding of `num / den` (`den > 0`) to the nearest binary64
double, ties to even. -/
def roundDyadic (num : ℤ) (den : ℕ) : ℤ × ℤ :=
  if num = 0 then (0, 0)
  else
    let p := roundPos num.natAbs den
    (if num < 0 then -(p.1 : ℤ) else (p.1 : ℤ), p.2)

/-- Exact rational value of a double. -/
def dyadicVal (p : ℤ × ℤ) : ℚ :=
  if 0 ≤ p.2 then ((p.1 * 2 ^ p.2.toNat : ℤ) : ℚ)
  else (p.1 : ℚ) / ((2 ^ (-p.2).toNat : ℕ) : ℚ)

/-- IEEE-754 binary64 addition: correct rounding of the exact sum. -/
def addF (a b : ℤ × ℤ) : ℤ × ℤ :=
  let e := min a.2 b.2
  let n := a.1 * 2 ^ (a.2 - e).toNat + b.1 * 2 ^ (b.2 - e).toNat
  if 0 ≤ e then roundDyadic (n * 2 ^ e.toNat) 1
  else roundDyadic n (2 ^ (-e).toNat)

/-- Binary64 negation (`x * -1` on a double): an exact sign flip. -/
def negF (p : ℤ × ℤ) : ℤ × ℤ := (-p.1, p.2)

/-- Value equality of two doubles, by cross-scaling to a common exponent. -/
def dyadicEq (a b : ℤ × ℤ) : Bool :=
  let e := min a.2 b.2
  a.1 * 2 ^ (a.2 - e).toNat == b.1 * 2 ^ (b.2 - e).toNat

/-- Decimal digit count (`1` for `0`). -/
def digitCount (n : ℕ) : ℕ := (natChars0 n).length

/-- Smallest `t ≥ 1` with `vd ≤ vn * 10 ^ t`, by fuel. -/
def smallPow : ℕ → ℕ → ℕ → ℕ
  | 0, _, _ => 1
  | fuel + 1, vn, vd => if vd ≤ vn * 10 then 1 else smallPow fuel (vn * 10) vd + 1

/-- Decimal exponent of the positive rational `vn / vd`: the `n` with
`10 ^ (n - 1) ≤ vn / vd < 10 ^ n`. -/
def decExp (vn vd : ℕ) : ℤ :=
  if vd ≤ vn then (digitCount (vn / vd) : ℤ) else 1 - smallPow 1200 vn vd

/-- One step of the ECMA-262 `Number::toString` digit search: among the
`k`-digit integers `s` whose decimal `s * 10 ^ (n - k)` converts back to
exactly the double `v`, the one closest to the value (ties to the even
`s`), if any. -/
def pickS (k : ℕ) (n : ℤ) (vn vd : ℕ) (v : ℤ × ℤ) : Option ℕ :=
  let exp2 : ℤ := (k : ℤ) - n
  let cNum := if 0 ≤ exp2 then vn * 10 ^ exp2.toNat else vn
  let cDen := if 0 ≤ exp2 then vd else vd * 10 ^ (-exp2).toNat
  let s0 := cNum / cDen
  let r := cNum % cDen
  let ok : ℕ → Bool := fun s =>
    decide (10 ^ (k - 1) ≤ s) && decide (s < 10 ^ k) &&
      (let e2 : ℤ := n - (k : ℤ)
       let rd := if 0 ≤ e2 then roundDyadic ((s : ℤ) * 10 ^ e2.toNat) 1
                 else roundDyadic (s : ℤ) (10 ^ (-e2).toNat)
       dyadicEq rd v)
  match ok s0, ok (s0 + 1) with
  | true, true =>
    some (if 2 * r < cDen then s0 else if cDen < 2 * r then s0 + 1
          else if s0 % 2 = 0 then s0 else s0 + 1)
  | true, false => some s0
  | false, true => some (s0 + 1)
  | false, false => none

/-- Shortest-digits search of `Number::toString`: the smallest digit count
`k` admitting a round-tripping decimal, with its digits.  Seventeen digits
always suffice for a double, so the fuel of `20` is never exhausted on a
value the program produces. -/
def searchS : ℕ → ℕ → ℤ → ℕ → ℕ → ℤ × ℤ → Option (ℕ × ℕ)
  | 0, _, _, _, _, _ => none
  | fuel + 1, k, n, vn, vd, v =>
    match pickS k n vn vd v with
    | some s => some (k, s)
    | none => searchS fuel (k + 1) n vn vd v

/-- Placement of digits, decimal point and exponent marker of ECMA-262
`Number::toString` for `k` digits `s` and decimal exponent `n`. -/
def jsRender (s k : ℕ) (n : ℤ) : List Char :=
  let ds := natChars0 s
  if (k : ℤ) ≤ n ∧ n ≤ 21 then ds ++ List.replicate (n - (k : ℤ)).toNat '0'
  else if 0 < n ∧ n ≤ 21 then ds.take n.toNat ++ '.' :: ds.drop n.toNat
  else if -5 ≤ n ∧ n ≤ 0 then '0' :: '.' :: (List.replicate (-n).toNat '0' ++ ds)
  else
    let em := n - 1
    (if k = 1 then ds else ds.take 1 ++ '.' :: ds.drop 1) ++
      'e' :: (if 0 ≤ em then '+' :: natChars0 em.toNat else '-' :: natChars0 (-em).toNat)

/-- ECMA-262 `Number::toString` on a double: the shortest decimal digit
string whose value converts back to exactly this double, rendered with
ECMA's point and exponent placement.  The fallback on fuel exhaustion is
never reached on a double the program produces. -/
def jsToStringF (p : ℤ × ℤ) : String :=
  if p.1 = 0 then "0"
  else
    let vn := if 0 ≤ p.2 then p.1.natAbs * 2 ^ p.2.toNat else p.1.natAbs
    let vd := if 0 ≤ p.2 then 1 else 2 ^ (-p.2).toNat
    let n := decExp vn vd
    match searchS 20 1 n vn vd ((p.1.natAbs : ℤ), p.2) with
    | some ks => String.mk ((if p.1 < 0 then ['-'] else []) ++ jsRender ks.2 ks.1 n)
    | none => ratToString (dyadicVal p)

/-- Digits of `toFixed(8)` on the magnitude `num / den`: the nearest
multiple of `10 ^ (-8)`, half up (away from zero after the sign is split
off, as ECMA resolves the tie toward the larger candidate). -/
def fixed8Mag (num den : ℕ) : List Char :=
  let n8 := (2 * num * 10 ^ 8 + den) / (2 * den)
  natChars0 (n8 / 10 ^ 8) ++ '.' :: padZeros 8 (n8 % 10 ^ 8)

/-- ECMA-262 `Number.prototype.toFixed(8)` on a double: sign, integer
digits and exactly eight fraction digits, falling back to `toString` from
`10 ^ 21` upward; a negative value keeps its sign even when the digits all
round to zero (`"-0.00000000"`). -/
def toFixed8F (p : ℤ × ℤ) : String :=
  let num := p.1.natAbs * (if 0 ≤ p.2 then 2 ^ p.2.toNat else 1)
  let den := if 0 ≤ p.2 then 1 else 2 ^ (-p.2).toNat
  if 10 ^ 21 * den ≤ num then jsToStringF p
  else if p.1 < 0 then String.mk ('-' :: fixed8Mag num den)
  else String.mk (fixed8Mag num den)

/-- Integer mantissa and fraction length of an unsigned decimal literal:
the parse of `parseUnsignedChars` kept as `(m, d)` with value
`m / 10 ^ d`. -/
def parseUnsignedMantissa (cs : List Char) : ℕ × ℕ :=
  let intPart := cs.takeWhile isDigitChar
  let rest := cs.dropWhile isDigitChar
  let fracPart :=
    match rest with
    | '.' :: r => r.takeWhile isDigitChar
    | _ => []
  (digitsToNat intPart * 10 ^ fracPart.length + digitsToNat fracPart, fracPart.length)

/-- Signed integer mantissa and fraction length of a decimal literal. -/
def parseMantissa : List Char → ℤ × ℕ
  | '-' :: rest => ((-(parseUnsignedMantissa rest).1 : ℤ), (parseUnsignedMantissa rest).2)
  | '+' :: rest => (((parseUnsignedMantissa rest).1 : ℤ), (parseUnsignedMantissa rest).2)
  | cs => (((parseUnsignedMantissa cs).1 : ℤ), (parseUnsignedMantissa cs).2)

/-- `parseFloat` on an amount string, faithfully: the decimal literal's
exact value correctly rounded to the nearest binary64 double. -/
def parseF (s : String) : ℤ × ℤ :=
  let p := parseMantissa s.toList
  roundDyadic p.1 (10 ^ p.2)

theorem parseUnsigned_eq_mantissa (cs : List Char) :
    parseUnsignedChars cs =
      ((parseUnsignedMantissa cs).1 : ℚ) / 10 ^ (parseUnsignedMantissa cs).2 := by
  unfold parseUnsignedChars parseUnsignedMantissa
  push_cast
  field_simp

theorem ratFloorNonneg_eq_floor (r : ℚ) : ratFloorNonneg r = ⌊r⌋ :=
  Rat.floor_def.symm

theorem roundHalfAway_intCast (n : ℤ) (hn : 0 ≤ n) : roundHalfAway (n : ℚ) = n := by
  unfold roundHalfAway
  rw [if_neg (not_lt.mpr (by exact_mod_cast hn)), ratFloorNonneg_eq_floor]
  rw [show ((n : ℚ) + 1 / 2) = (n : ℤ) + (1 / 2 : ℚ) by norm_num, Int.floor_int_add]
  rw [show ⌊(1 / 2 : ℚ)⌋ = 0 from Int.floor_eq_zero_iff.mpr (by constructor <;> norm_num)]
  omega

theorem dyadicVal_zpow (p : ℤ × ℤ) : dyadicVal p = (p.1 : ℚ) * 2 ^ p.2 := by
  unfold dyadicVal
  by_cases h : 0 ≤ p.2
  · rw [if_pos h]
    push_cast
    rw [← zpow_natCast (2 : ℚ) p.2.toNat, Int.toNat_of_nonneg h]
  · rw [if_neg h]
    push_cast
    rw [← zpow_natCast (2 : ℚ) (-p.2).toNat, Int.toNat_of_nonneg (by omega)]
    rw [div_eq_mul_inv, ← zpow_neg]
    norm_num

theorem dyadicVal_negF (p : ℤ × ℤ) : dyadicVal (negF p) = -dyadicVal p := by
  rw [dyadicVal_zpow, dyadicVal_zpow]
  unfold negF
  push_cast
  ring

theorem dyadicEq_val {a b : ℤ × ℤ} (h : dyadicEq a b = true) : dyadicVal a = dyadicVal b := by
  unfold dyadicEq at h
  rw [beq_iff_eq] at h
  have hcast : ((a.1 * 2 ^ (a.2 - min a.2 b.2).toNat : ℤ) : ℚ) =
      ((b.1 * 2 ^ (b.2 - min a.2 b.2).toNat : ℤ) : ℚ) :=
    congrArg (fun z : ℤ => (z : ℚ)) h
  push_cast at hcast
  rw [dyadicVal_zpow, dyadicVal_zpow]
  have h2 : (2 : ℚ) ≠ 0 := by norm_num
  have ha : ((a.2 - min a.2 b.2).toNat : ℤ) = a.2 - min a.2 b.2 :=
    Int.toNat_of_nonneg (by omega)
  have hb : ((b.2 - min a.2 b.2).toNat : ℤ) = b.2 - min a.2 b.2 :=
    Int.toNat_of_nonneg (by omega)
  have hA : (a.1 : ℚ) * 2 ^ a.2 =
      ((a.1 : ℚ) * 2 ^ (a.2 - min a.2 b.2).toNat) * 2 ^ (min a.2 b.2) := by
    rw [mul_assoc, ← zpow_natCast (2 : ℚ) (a.2 - min a.2 b.2).toNat, ha,
      ← zpow_add₀ h2]
    ring_nf
  have hB : (b.1 : ℚ) * 2 ^ b.2 =
      ((b.1 : ℚ) * 2 ^ (b.2 - min a.2 b.2).toNat) * 2 ^ (min a.2 b.2) := by
    rw [mul_assoc, ← zpow_natCast (2 : ℚ) (b.2 - min a.2 b.2).toNat, hb,
      ← zpow_add₀ h2]
    ring_nf
  rw [hA, hB, hcast]

/-- `Ledger.getAccountBalance` (read-only), at faithful binary64 arithmetic:
`balance` starts at the double `0` and accumulates `parseFloat(event.amount)`
with binary64 additions, and the result is rendered by `toFixed(8)`. -/
def getAccountBalanceF (tenantId accountId : String) (s : St) :
    Except LErr AccountBalance :=
  match getAccount s tenantId accountId with
  | none => Except.error LErr.accountNotFound
  | some account =>
    let events := getEventsByAccountId s tenantId accountId
    let balance := events.foldl (fun b e => addF b (parseF e.amount)) (0, 0)
    Except.ok
      { accountId := accountId
        balance := toFixed8F balance
        currency := account.currency
        eventCount := events.length }

/-- C3 (amended: the program sums the parsed amounts in IEEE-754 binary64
arithmetic, so the returned balance is the `toFixed(8)` rendering of the
double fold, which can differ from the exact rational sum once an amount's
contribution falls below the running sum's precision):
`getAccountBalance` fails with `ACCOUNT_NOT_FOUND` when the account does not
exist for the tenant; otherwise it returns the binary64 left fold of the
double parses of every stored event's amount for the account (all event
types, reversals included) rendered at fixed eight-fraction-digit precision,
together with the account's currency and the number of the account's
events. -/
theorem claim3_balance_is_double_sum (s : St) (tid aid : String) :
    (getAccount s tid aid = none →
      getAccountBalanceF tid aid s = Except.error LErr.accountNotFound) ∧
    (∀ account, getAccount s tid aid = some account →
      getAccountBalanceF tid aid s = Except.ok
        { accountId := aid
          balance := toFixed8F ((getEventsByAccountId s tid aid).foldl
            (fun b e => addF b (parseF e.amount)) (0, 0))
          currency := account.currency
          eventCount := (getEventsByAccountId s tid aid).length }) := by
  constructor
  · intro hacct
    simp [getAccountBalanceF, hacct]
  · intro account hacct
    simp only [getAccountBalanceF, hacct]

theorem claim3_witness :
    getAccountBalanceF "t3" "acct-3" c3State = Except.ok
      { accountId := "acct-3"
        balance := toFixed8F ((getEventsByAccountId c3State "t3" "acct-3").foldl
          (fun b e => addF b (parseF e.amount)) (0, 0))
        currency := c3Account.currency
        eventCount := (getEventsByAccountId c3State "t3" "acct-3").length } :=
  (claim3_balance_is_double_sum c3State "t3" "acct-3").2 c3Account rfl

/-- Account of the C3 counterexample. -/
def c3cexAcct : LedgerAccount :=
  { id := "acct"
    tenantId := "t"
    accountType := "CASH"
    currency := "USD"
    metadata := none
    createdAt := 0 }

/-- Events of the C3 counterexample: a large and a tiny amount, both exact
decimals within the schema's `numeric(20, 8)`. -/
def c3cexEvents : List LedgerEvent :=
  [{ id := "e1", tenantId := "t", accountId := "acct", eventType := "CREDIT",
     amount := "10000000000", currency := "USD", idempotencyKey := "k1",
     reversesEventId := none, description := none, metadata := none,
     sequenceNumber := 1, createdAt := 0 },
   { id := "e2", tenantId := "t", accountId := "acct", eventType := "CREDIT",
     amount := "0.00000001", currency := "USD", idempotencyKey := "k2",
     reversesEventId := none, description := none, metadata := none,
     sequenceNumber := 2, createdAt := 1 }]

/-- State of the C3 counterexample. -/
def c3cexS : St :=
  { st0 with
    accounts := [(accountKey "t" "acct", c3cexAcct)]
    events := c3cexEvents }

theorem parseAmount_big : parseAmount "10000000000" = 10 ^ 10 := by
  have h : parseAmount "10000000000" = parseUnsignedChars "10000000000".toList := rfl
  rw [h, parseUnsigned_eq_mantissa,
    show parseUnsignedMantissa "10000000000".toList = (10 ^ 10, 0) from by decide]
  norm_num

theorem parseAmount_tiny : parseAmount "0.00000001" = 1 / 10 ^ 8 := by
  have h : parseAmount "0.00000001" = parseUnsignedChars "0.00000001".toList := rfl
  rw [h, parseUnsigned_eq_mantissa,
    show parseUnsignedMantissa "0.00000001".toList = (1, 8) from by decide]
  norm_num

set_option maxRecDepth 20000 in
/-- C3, counterexample: with stored amounts `10000000000` and `0.00000001`,
the program's binary64 sum rounds the tiny contribution away and the
returned balance is `"10000000000.00000000"`, while the exact rational sum
rendered at eight fraction digits — what the claim asserts — is
`"10000000000.00000001"`. -/
theorem claim3_counterexample :
    ((getAccountBalanceF "t" "acct" c3cexS).toOption.map (fun b => b.balance) =
      some "10000000000.00000000") ∧
    ((getAccountBalance "t" "acct" c3cexS).toOption.map (fun b => b.balance) =
      some "10000000000.00000001") ∧
    ("10000000000.00000000" : String) ≠ "10000000000.00000001" := by
  refine ⟨by decide, ?_, by decide⟩
  have h := (getAccountBalance_rat_sum c3cexS "t" "acct").2 c3cexAcct rfl
  rw [h]
  have hevents : getEventsByAccountId c3cexS "t" "acct" = c3cexEvents := by decide
  have hsum : ((getEventsByAccountId c3cexS "t" "acct").map
      (fun e => parseAmount e.amount)).sum = 10 ^ 10 + 1 / 10 ^ 8 := by
    rw [hevents]
    simp only [c3cexEvents, List.map_cons, List.map_nil, List.sum_cons, List.sum_nil]
    rw [parseAmount_big, parseAmount_tiny]
    norm_num
  simp only [Except.toOption, Option.map, hsum]
  congr 1
  unfold ratToFixed8
  rw [show ((10 ^ 10 + 1 / 10 ^ 8 : ℚ) * 10 ^ 8) = ((10 ^ 18 + 1 : ℤ) : ℚ) from by norm_num,
    roundHalfAway_intCast (10 ^ 18 + 1) (by norm_num)]
  decide

/-- `Ledger.reverseEvent` at faithful binary64 arithmetic: the reversed
amount is `(parseFloat(originalEvent.amount) * -1).toString()`, the exact
sign flip of the original's double value rendered by `Number::toString`. -/
def reverseEventF (tenantId : String) (p : ReverseEventParams) (s : St) :
    Except LErr (LedgerEvent × St) :=
  match getEventByIdempotencyKey s tenantId p.idempotencyKey with
  | some existingByKey => Except.ok (existingByKey, s)
  | none =>
    match getEventById s tenantId p.originalEventId with
    | none => Except.error LErr.eventNotFound
    | some originalEvent =>
      let existingEvents := getEventsByAccountId s tenantId originalEvent.accountId
      if existingEvents.any (fun e => e.reversesEventId == some p.originalEventId) then
        Except.error LErr.alreadyReversed
      else
        let idGen : String × St :=
          match jsOrNone p.reversalEventId with
          | some i => (i, s)
          | none => freshUuid s
        let reversalEventId := idGen.1
        let s1 := idGen.2
        let sequenceNumber := getNextSequenceNumber s1 tenantId originalEvent.accountId
        let reversedAmount := jsToStringF (negF (parseF originalEvent.amount))
        let fresh : LedgerEvent :=
          { id := reversalEventId
            tenantId := tenantId
            accountId := originalEvent.accountId
            eventType := "REVERSAL"
            amount := reversedAmount
            currency := originalEvent.currency
            idempotencyKey := p.idempotencyKey
            reversesEventId := some p.originalEventId
            description := some (jsOr p.description ("Reversal of event " ++ p.originalEventId))
            metadata := none
            sequenceNumber := sequenceNumber
            createdAt := 0 }
        match createEvent s1 fresh with
        | Except.error err => Except.error err
        | Except.ok es =>
          let s3 := emitAuditEvent tenantId "event" reversalEventId "EVENT_REVERSED"
            (some (encodePayload [("originalEventId", p.originalEventId),
              ("reversalAmount", reversedAmount)])) es.2
          Except.ok (es.1, s3)

/-- Event created by a successful `reverseEventF`. -/
def revNewEventF (tid : String) (p : ReverseEventParams) (orig : LedgerEvent)
    (rid : String) (s : St) : LedgerEvent :=
  { id := rid
    tenantId := tid
    accountId := orig.accountId
    eventType := "REVERSAL"
    amount := jsToStringF (negF (parseF orig.amount))
    currency := orig.currency
    idempotencyKey := p.idempotencyKey
    reversesEventId := some p.originalEventId
    description := some (jsOr p.description ("Reversal of event " ++ p.originalEventId))
    metadata := none
    sequenceNumber := getNextSequenceNumber s tid orig.accountId
    createdAt := s.clock }

/-- Audit record emitted by a successful `reverseEventF`. -/
def revAuditF (tid : String) (p : ReverseEventParams) (orig : LedgerEvent)
    (rid audId : String) (s : St) : AuditEvent :=
  { id := audId
    tenantId := tid
    entityType := "event"
    entityId := rid
    action := "EVENT_REVERSED"
    actorId := none
    payload := some (encodePayload [("originalEventId", p.originalEventId),
      ("reversalAmount", jsToStringF (negF (parseF orig.amount)))])
    createdAt := s.clock + 1 }

/-- Successor state of a successful `reverseEventF`. -/
def revNewStateF (tid : String) (p : ReverseEventParams) (orig : LedgerEvent)
    (rid audId : String) (nu : ℕ) (s : St) : St :=
  { accounts := s.accounts
    events := s.events ++ [revNewEventF tid p orig rid s]
    audits := s.audits ++ [revAuditF tid p orig rid audId s]
    clock := s.clock + 2
    nextUuid := nu }

/-- Shape of a successful `reverseEventF`. -/
theorem reverseEventF_success (s : St) (tid : String) (p : ReverseEventParams)
    (orig : LedgerEvent)
    (hfresh : getEventByIdempotencyKey s tid p.idempotencyKey = none)
    (horig : getEventById s tid p.originalEventId = some orig)
    (hnorev : ((getEventsByAccountId s tid orig.accountId).any
      (fun e => e.reversesEventId == some p.originalEventId)) = false) :
    ∃ rev s1 aud,
      reverseEventF tid p s = Except.ok (rev, s1) ∧
      rev.tenantId = tid ∧
      rev.accountId = orig.accountId ∧
      rev.eventType = "REVERSAL" ∧
      rev.amount = jsToStringF (negF (parseF orig.amount)) ∧
      rev.currency = orig.currency ∧
      rev.idempotencyKey = p.idempotencyKey ∧
      rev.reversesEventId = some p.originalEventId ∧
      rev.description = some (jsOr p.description ("Reversal of event " ++ p.originalEventId)) ∧
      rev.sequenceNumber = getNextSequenceNumber s tid orig.accountId ∧
      s1.accounts = s.accounts ∧
      s1.events = s.events ++ [rev] ∧
      s1.audits = s.audits ++ [aud] ∧
      aud.action = "EVENT_REVERSED" := by
  have hany : (s.events.any
      (fun x => x.tenantId == tid && x.idempotencyKey == p.idempotencyKey)) = false :=
    List.any_eq_false.mpr (List.find?_eq_none.mp hfresh)
  rcases hgen : jsOrNone p.reversalEventId with _ | i
  · have hrec : reverseEventF tid p s = Except.ok
        (revNewEventF tid p orig ("uuid-" ++ natToStr s.nextUuid) s,
         revNewStateF tid p orig ("uuid-" ++ natToStr s.nextUuid)
           ("uuid-" ++ natToStr (s.nextUuid + 1)) (s.nextUuid + 2) s) := by
      simp only [reverseEventF, hfresh, horig, hnorev, Bool.false_eq_true, if_false, hgen,
        createEvent, emitAuditEvent, freshUuid, hany]
      rfl
    exact ⟨_, _, _, hrec, rfl, rfl, rfl, rfl, rfl, rfl, rfl, rfl, rfl, rfl, rfl, rfl, rfl⟩
  · have hrec : reverseEventF tid p s = Except.ok
        (revNewEventF tid p orig i s,
         revNewStateF tid p orig i ("uuid-" ++ natToStr s.nextUuid) (s.nextUuid + 1) s) := by
      simp only [reverseEventF, hfresh, horig, hnorev, Bool.false_eq_true, if_false, hgen,
        createEvent, emitAuditEvent, freshUuid, hany]
      rfl
    exact ⟨_, _, _, hrec, rfl, rfl, rfl, rfl, rfl, rfl, rfl, rfl, rfl, rfl, rfl, rfl, rfl⟩

/-- C4 (amended: the program negates the binary64 double `parseFloat`
returns and stores its `toString` rendering, so the stored amount is the
exact negation of the original's double value, not of its exact decimal
value, and the two differ once the original amount exceeds double
precision): on an existing, not-yet-reversed original event, `reverseEvent`
creates and returns a new event whose amount is the shortest round-trip
rendering of the binary64 negation of the original amount's double parse —
so whenever that rendering parses back to the same double, the reversal's
double value is exactly the negation of the original's double value — with
event type `REVERSAL`, the original's currency, `reversesEventId` pointing
at the original, a fresh sequence number strictly above every stored one
for the account, and (when no description is supplied) a templated
description naming the original event id; every previously stored event,
the original included, is still stored unaltered. -/
theorem claim4_reverseEvent_negates_double (s : St) (tid : String)
    (p : ReverseEventParams) (orig : LedgerEvent)
    (hfresh : getEventByIdempotencyKey s tid p.idempotencyKey = none)
    (horig : getEventById s tid p.originalEventId = some orig)
    (hnorev : ∀ x ∈ getEventsByAccountId s tid orig.accountId,
      x.reversesEventId ≠ some p.originalEventId) :
    ∃ rev s1, reverseEventF tid p s = Except.ok (rev, s1) ∧
      rev.eventType = "REVERSAL" ∧
      rev.amount = jsToStringF (negF (parseF orig.amount)) ∧
      (dyadicEq (parseF rev.amount) (negF (parseF orig.amount)) = true →
        dyadicVal (parseF rev.amount) = -dyadicVal (parseF orig.amount)) ∧
      rev.currency = orig.currency ∧
      rev.reversesEventId = some p.originalEventId ∧
      rev.sequenceNumber = getNextSequenceNumber s tid orig.accountId ∧
      (∀ x ∈ getEventsByAccountId s tid orig.accountId,
        x.sequenceNumber < rev.sequenceNumber) ∧
      (jsOrNone p.description = none →
        rev.description = some ("Reversal of event " ++ p.originalEventId)) ∧
      (∀ e ∈ s.events, e ∈ s1.events) := by
  have hnorevB : ((getEventsByAccountId s tid orig.accountId).any
      (fun e => e.reversesEventId == some p.originalEventId)) = false := by
    rw [List.any_eq_false]
    intro x hx
    simpa using hnorev x hx
  obtain ⟨rev, s1, aud, hrec, hten, hacc, hety, ham, hcur, hkey, hrev, hdesc, hseq, haccs,
    hevs, hauds, haction⟩ := reverseEventF_success s tid p orig hfresh horig hnorevB
  refine ⟨rev, s1, hrec, hety, ham, ?_, hcur, hrev, hseq, ?_, ?_, ?_⟩
  · intro hq
    exact (dyadicEq_val hq).trans (dyadicVal_negF _)
  · intro x hx
    rw [hseq]
    have hne2 : getEventsByAccountId s tid orig.accountId ≠ [] := by
      intro h0
      rw [h0] at hx
      simp at hx
    have hne : (getEventsByAccountId s tid orig.accountId).isEmpty = false := by
      cases hb : (getEventsByAccountId s tid orig.accountId).isEmpty
      · rfl
      · exact absurd (List.isEmpty_iff.mp hb) hne2
    simp only [getNextSequenceNumber, hne, Bool.false_eq_true, if_false]
    have hx' : x.sequenceNumber ∈
        (getEventsByAccountId s tid orig.accountId).map (fun e => e.sequenceNumber) :=
      List.mem_map_of_mem _ hx
    exact Nat.lt_succ_of_le (foldl_max_le _ 0 _ hx')
  · intro hd
    rw [hdesc, jsOr_of_none hd]
  · intro e he
    rw [hevs]
    exact List.mem_append_left _ he

theorem claim4_witness :
    ∃ rev s1, reverseEventF "t1" c4P c4State = Except.ok (rev, s1) ∧
      rev.eventType = "REVERSAL" ∧
      rev.amount = jsToStringF (negF (parseF c4Orig.amount)) ∧
      (dyadicEq (parseF rev.amount) (negF (parseF c4Orig.amount)) = true →
        dyadicVal (parseF rev.amount) = -dyadicVal (parseF c4Orig.amount)) ∧
      rev.currency = c4Orig.currency ∧
      rev.reversesEventId = some c4P.originalEventId ∧
      rev.sequenceNumber = getNextSequenceNumber c4State "t1" c4Orig.accountId ∧
      (∀ x ∈ getEventsByAccountId c4State "t1" c4Orig.accountId,
        x.sequenceNumber < rev.sequenceNumber) ∧
      (jsOrNone c4P.description = none →
        rev.description = some ("Reversal of event " ++ c4P.originalEventId)) ∧
      (∀ e ∈ c4State.events, e ∈ s1.events) :=
  claim4_reverseEvent_negates_double c4State "t1" c4P c4Orig rfl rfl (by decide)

/-- Original event of the C4 counterexample: its amount is a legal
`numeric(20, 8)` decimal whose twenty significant digits exceed binary64
precision. -/
def c4cexOrig : LedgerEvent :=
  { id := "orig-1"
    tenantId := "t"
    accountId := "acct"
    eventType := "CREDIT"
    amount := "123456789012.12345678"
    currency := "USD"
    idempotencyKey := "k1"
    reversesEventId := none
    description := none
    metadata := none
    sequenceNumber := 1
    createdAt := 0 }

/-- State of the C4 counterexample. -/
def c4cexS : St := { st0 with events := [c4cexOrig] }

/-- Reversal call of the C4 counterexample. -/
def c4cexP : ReverseEventParams :=
  { originalEventId := "orig-1"
    reversalEventId := some "rev-1"
    idempotencyKey := "k2"
    description := none }

theorem parseAmount_c4cex : parseAmount "123456789012.12345678" =
    12345678901212345678 / 10 ^ 8 := by
  have h : parseAmount "123456789012.12345678" =
      parseUnsignedChars "123456789012.12345678".toList := rfl
  rw [h, parseUnsigned_eq_mantissa,
    show parseUnsignedMantissa "123456789012.12345678".toList = (12345678901212345678, 8)
      from by decide]
  norm_num

theorem parseAmount_c4cex_rev : parseAmount "-123456789012.12346" =
    -(12345678901212346 / 10 ^ 5 : ℚ) := by
  have h : parseAmount "-123456789012.12346" =
      -parseUnsignedChars "123456789012.12346".toList := rfl
  rw [h, parseUnsigned_eq_mantissa,
    show parseUnsignedMantissa "123456789012.12346".toList = (12345678901212346, 5)
      from by decide]
  norm_num

set_option maxRecDepth 40000 in
/-- C4, counterexample: reversing an event whose amount is the in-schema
decimal `123456789012.12345678` stores the amount `-123456789012.12346` —
`parseFloat` drops the digits beyond double precision and `toString` prints
the shortest form of the negated double — so the stored reversal is not the
exact arithmetic negation of the original amount, although at double
precision it is exactly the negation of the original's parsed value. -/
theorem claim4_counterexample :
    ((reverseEventF "t" c4cexP c4cexS).toOption.map (fun rs => rs.1.amount) =
      some "-123456789012.12346") ∧
    c4cexOrig.amount = "123456789012.12345678" ∧
    parseAmount "-123456789012.12346" ≠ -parseAmount "123456789012.12345678" ∧
    dyadicEq (parseF "-123456789012.12346")
      (negF (parseF "123456789012.12345678")) = true := by
  refine ⟨by decide, rfl, ?_, by decide⟩
  rw [parseAmount_c4cex, parseAmount_c4cex_rev]
  norm_num

end CoreLedger
